import Mathlib

/-!
# charidy-api-test: the four HTTP handlers of `server.go`

A shallow embedding of `server.go`.  The handlers are pure functions that pass
an explicit execution state (`Exec`): the response writer of `net/http`, the
calls to `time.Sleep`, and whether the request body was read.

The platform (`net/http`, `encoding/json`) is embedded next to the handlers,
each definition naming the Go function it follows.
-/

namespace Charidy

/-! ## net/http: headers, response writer, `http.Error` -/

/-- An `http.Header`, as an association list from canonical key to value. -/
abbrev Header := List (String × String)

/-- Go `Header.Del`. -/
def Header.del (h : Header) (key : String) : Header :=
  h.filter (fun kv => kv.1 != key)

/-- Go `Header.Set`: the key is bound to the single value. -/
def Header.set (h : Header) (key value : String) : Header :=
  (key, value) :: h.del key

/-- Go `Header.Get`: the first value of the key, `none` when the key is absent. -/
def Header.get (h : Header) (key : String) : Option String :=
  (h.find? (fun kv => kv.1 == key)).map (fun kv => kv.2)

/-- An inbound `*http.Request`: the fields the program reads.  The path is
`r.URL.Path`; the body is taken as text, that is a body of valid UTF-8. -/
structure Request where
  method : String
  path : String
  header : Header
  body : String
  remoteAddr : String
deriving DecidableEq, Repr

/-- The `http.ResponseWriter` of the server.  `handlerHeader` is the map that
`w.Header()` returns; `sentHeader` is the snapshot the server takes of it when
the header is written (`WriteHeader`), which is what goes to the client. -/
structure ResponseWriter where
  handlerHeader : Header
  wroteHeader : Bool
  status : Nat
  sentHeader : Header
  body : String
deriving DecidableEq, Repr

/-- The state a handler runs in: the writer, the durations (ms) passed to
`time.Sleep`, and whether `r.Body` has been read. -/
structure Exec where
  w : ResponseWriter
  slept : List Nat
  bodyRead : Bool
deriving DecidableEq, Repr

/-- The state at the start of a request. -/
def Exec.fresh : Exec :=
  { w := { handlerHeader := [], wroteHeader := false, status := 0, sentHeader := [], body := "" },
    slept := [], bodyRead := false }

/-- The status codes of `net/http` the program uses. -/
def StatusOK : Nat := 200
def StatusCreated : Nat := 201
def StatusBadRequest : Nat := 400
def StatusNotFound : Nat := 404
def StatusMethodNotAllowed : Nat := 405
def StatusNotAcceptable : Nat := 406
def StatusTooManyRequests : Nat := 429
def StatusInternalServerError : Nat := 500

/-- Go `w.Header().Set(key, value)`: changes the handler's map only. -/
def Exec.headerSet (s : Exec) (key value : String) : Exec :=
  { s with w := { s.w with handlerHeader := s.w.handlerHeader.set key value } }

/-- Go `w.Header().Del(key)`. -/
def Exec.headerDel (s : Exec) (key : String) : Exec :=
  { s with w := { s.w with handlerHeader := s.w.handlerHeader.del key } }

/-- Go `w.WriteHeader(code)`: the first call fixes the status and snapshots the
header map; later calls are ignored (the server logs a superfluous call). -/
def Exec.writeHeader (s : Exec) (code : Nat) : Exec :=
  if s.w.wroteHeader then s
  else { s with w := { s.w with wroteHeader := true, status := code,
                                 sentHeader := s.w.handlerHeader } }

/-- Go `w.Write(data)`: writes the header with status 200 when it has not been
written yet, then appends the data to the body. -/
def Exec.write (s : Exec) (data : String) : Exec :=
  let s1 := s.writeHeader StatusOK
  { s1 with w := { s1.w with body := s1.w.body ++ data } }

/-- Go `time.Sleep(ms * time.Millisecond)`. -/
def Exec.sleep (s : Exec) (ms : Nat) : Exec :=
  { s with slept := s.slept ++ [ms] }

/-- Go `http.Error(w, error, code)`: the content type is forced to plain text,
then the status and the message followed by a newline are written. -/
def httpError (s : Exec) (error : String) (code : Nat) : Exec :=
  let s1 := s.headerDel "Content-Length"
  let s2 := s1.headerSet "Content-Type" "text/plain; charset=utf-8"
  let s3 := s2.headerSet "X-Content-Type-Options" "nosniff"
  let s4 := s3.writeHeader code
  s4.write (error ++ "\n")

/-- The server, once the handler has returned: a handler that wrote nothing
gets an implicit `WriteHeader(200)`. -/
def finishRequest (s : Exec) : Exec := s.writeHeader StatusOK

/-- Go `strings.TrimSuffix`. -/
def trimSuffix (s suffix : String) : String :=
  if suffix.data.isSuffixOf s.data then String.mk (s.data.take (s.data.length - suffix.data.length))
  else s

/-! ## The handlers of `server.go` -/

/-- `healthCheck` (server.go:32). -/
def healthCheck (r : Request) (s : Exec) : Exec :=
  if r.method = "GET" then
    (s.writeHeader StatusOK).write "ok"
  else
    httpError s "Sorry, Only GET methods are currently supported" StatusMethodNotAllowed

/-- Go `strconv.Itoa` on a non-negative int. -/
def itoa (n : Nat) : String := String.mk (Nat.toDigits 10 n)

/-- `standardGETRequest` (server.go:44).  `draw` is the value of `r1.Intn(1000)`
for the freshly seeded source. -/
def standardGETRequest (draw : Nat) (r : Request) (s : Exec) : Exec :=
  if r.method = "GET" then
    let randWait := draw + 500
    let s1 := s.sleep randWait
    let s2 := s1.writeHeader StatusOK
    let s3 := s2.headerSet "X-Compute-Response-Time" (itoa randWait ++ "ms")
    s3.write "Here's a Nice Web Page, or some Data"
  else
    httpError s "Sorry, Only GET methods are currently supported" StatusMethodNotAllowed

/-! ## encoding/json -/

/-- A finite `float64`: the value is `(-1)^neg * mant * 2^exp`, with
`mant < 2^53`, `-1074 ≤ exp ≤ 971`, and `exp = -1074` when `mant < 2^52`. -/
structure Float64 where
  neg : Bool
  mant : Nat
  exp : Int
deriving DecidableEq, Repr

/-- A JSON value with numbers of type `α`.  With `α = Float64` these are the
values `encoding/json` decodes into an `interface{}`: `nil`, `bool`, `float64`,
`string`, `[]interface{}` and `map[string]interface{}`.  A map is kept as the
list of its entries in increasing key order, the order in which the encoder
writes it. -/
inductive JSON (α : Type) where
  | null
  | bool (b : Bool)
  | num (f : α)
  | str (s : String)
  | arr (xs : List (JSON α))
  | obj (kvs : List (String × JSON α))
deriving Repr

/-- The Go values held by an `interface{}` after decoding. -/
abbrev Value := JSON Float64

/-- Go `isSpace` of the JSON scanner. -/
def isSpace (c : Char) : Bool := c == ' ' || c == '\t' || c == '\r' || c == '\n'

/-- The input without its leading white space. -/
def skipSpace : List Char → List Char
  | [] => []
  | c :: cs => if isSpace c then skipSpace cs else c :: cs

/-- A decimal digit `0` to `9`. -/
def isDigit (c : Char) : Bool := decide ('0' ≤ c) && decide (c ≤ '9')

/-- The longest run of digits at the front of the input, and the rest. -/
def takeDigits : List Char → List Char × List Char
  | [] => ([], [])
  | c :: cs => if isDigit c then ((c :: (takeDigits cs).1), (takeDigits cs).2) else ([], c :: cs)

/-- The pieces of a number literal accepted by the scanner. -/
structure NumberLit where
  neg : Bool
  int : List Char
  frac : List Char
  expNeg : Bool
  exp : List Char
deriving DecidableEq, Repr

/-- The optional fraction: a `.` must be followed by at least one digit. -/
def scanFrac : List Char → Option (List Char × List Char)
  | [] => some ([], [])
  | c :: r =>
    if c = '.' then
      if (takeDigits r).1 = [] then none else some (takeDigits r)
    else some ([], c :: r)

/-- The digits of an exponent, at least one. -/
def scanExpDigits (neg : Bool) (r : List Char) : Option (Bool × List Char × List Char) :=
  if (takeDigits r).1 = [] then none else some (neg, (takeDigits r).1, (takeDigits r).2)

/-- The optional exponent: `e` or `E`, an optional sign, at least one digit. -/
def scanExp : List Char → Option (Bool × List Char × List Char)
  | [] => some (false, [], [])
  | e :: r =>
    if e = 'e' ∨ e = 'E' then
      match r with
      | [] => none
      | s :: r1 =>
        if s = '+' then scanExpDigits false r1
        else if s = '-' then scanExpDigits true r1
        else scanExpDigits false (s :: r1)
    else some (false, [], e :: r)

/-- The integer part: `0`, or a digit `1` to `9` and the digits after it. -/
def scanInt : List Char → Option (List Char × List Char)
  | [] => none
  | c :: r =>
    if c = '0' then some ([c], r)
    else if isDigit c then some (c :: (takeDigits r).1, (takeDigits r).2)
    else none

/-- A number literal after its optional minus sign. -/
def scanUnsigned (neg : Bool) (inp : List Char) : Option (NumberLit × List Char) :=
  match scanInt inp with
  | none => none
  | some (int, r1) =>
    match scanFrac r1 with
    | none => none
    | some (frac, r2) =>
      match scanExp r2 with
      | none => none
      | some (expNeg, exp, r3) =>
        some ({ neg := neg, int := int, frac := frac, expNeg := expNeg, exp := exp }, r3)

/-- The scanner on a number: `-? (0 | [1-9][0-9]*) (. [0-9]+)? ([eE] [+-]? [0-9]+)?`,
longest match, an error when a started part is incomplete. -/
def scanNumber : List Char → Option (NumberLit × List Char)
  | [] => none
  | c :: r => if c = '-' then scanUnsigned true r else scanUnsigned false (c :: r)

/-- The number a string of decimal digits stands for. -/
def digitsVal (ds : List Char) : Nat := ds.foldl (fun acc c => 10 * acc + (c.toNat - 48)) 0

/-- The binary logarithm by halving, at most `fuel` times. -/
def log2Fuel : Nat → Nat → Nat
  | 0, _ => 0
  | fuel + 1, n => if n < 2 then 0 else log2Fuel fuel (n / 2) + 1

/-- The position of the highest set bit: `2^(log2 n) ≤ n < 2^(log2 n + 1)` for `0 < n`. -/
def log2 (n : Nat) : Nat := log2Fuel n n

/-- Go `strconv.ParseFloat(s, 64)` on the decimal `d * 10^e10`: the nearest
float64, ties to even; `none` is the range error (the value rounds beyond the
largest finite float64). -/
def roundFloat64 (neg : Bool) (d : Nat) (e10 : Int) : Option Float64 :=
  if d = 0 then some ⟨neg, 0, -1074⟩ else
  let num := if 0 ≤ e10 then d * 10 ^ e10.toNat else d
  let den := if 0 ≤ e10 then 1 else 10 ^ (-e10).toNat
  let e0 : Int := (log2 num : Int) - (log2 den : Int)
  let below : Bool := if 0 ≤ e0 then decide (num < den * 2 ^ e0.toNat)
                      else decide (num * 2 ^ (-e0).toNat < den)
  let e : Int := if below then e0 - 1 else e0
  let ex : Int := max (e - 52) (-1074)
  let n2 := if 0 ≤ ex then num else num * 2 ^ (-ex).toNat
  let d2 := if 0 ≤ ex then den * 2 ^ ex.toNat else den
  let q := n2 / d2
  let r := n2 % d2
  let q1 := if d2 < 2 * r ∨ (2 * r = d2 ∧ q % 2 = 1) then q + 1 else q
  let m := if q1 = 2 ^ 53 then 2 ^ 52 else q1
  let ex1 := if q1 = 2 ^ 53 then ex + 1 else ex
  if 971 < ex1 then none else some ⟨neg, m, ex1⟩

/-- Go `convertNumber` of the decoder: `strconv.ParseFloat` on the literal,
`none` when the value is out of the float64 range. -/
def convertNumber (lit : NumberLit) : Option Float64 :=
  let e : Int := if lit.expNeg then - (digitsVal lit.exp : Int) else (digitsVal lit.exp : Int)
  roundFloat64 lit.neg (digitsVal (lit.int ++ lit.frac)) (e - (lit.frac.length : Int))

/-! ### Strings -/

/-- The value of a hexadecimal digit of either case. -/
def hexVal (c : Char) : Option Nat :=
  if isDigit c then some (c.toNat - 48)
  else if 'a' ≤ c ∧ c ≤ 'f' then some (c.toNat - 87)
  else if 'A' ≤ c ∧ c ≤ 'F' then some (c.toNat - 55)
  else none

/-- Four hexadecimal digits as a UTF-16 code unit. -/
def hex4 : List Char → Option Nat
  | a :: b :: c :: d :: _ =>
    match hexVal a, hexVal b, hexVal c, hexVal d with
    | some x, some y, some z, some w => some (((x * 16 + y) * 16 + z) * 16 + w)
    | _, _, _, _ => none
  | _ => none

/-- Go `getu4`: the code unit of a leading `\uXXXX`, `none` when there is no such escape. -/
def getu4 : List Char → Option Nat
  | b :: u :: r => if b = '\\' ∧ u = 'u' then hex4 r else none
  | _ => none

/-- Unicode replacement character `U+FFFD`. -/
def replacementChar : Char := Char.ofNat 0xFFFD

/-- One escape sequence, the backslash already consumed (Go `unquoteBytes`,
on input the scanner accepts).  A `\u` escape of a surrogate half is combined
with a following low half, or replaced by `U+FFFD`. -/
def decodeEscape : List Char → Option (Char × List Char)
  | [] => none
  | e :: r =>
    if e = '"' ∨ e = '\\' ∨ e = '/' then some (e, r)
    else if e = 'b' then some (Char.ofNat 8, r)
    else if e = 'f' then some (Char.ofNat 12, r)
    else if e = 'n' then some ('\n', r)
    else if e = 'r' then some ('\r', r)
    else if e = 't' then some ('\t', r)
    else if e = 'u' then
      match hex4 r with
      | none => none
      | some rr =>
        if 0xD800 ≤ rr ∧ rr < 0xE000 then
          match getu4 (r.drop 4) with
          | some rr1 =>
            if rr < 0xDC00 ∧ 0xDC00 ≤ rr1 ∧ rr1 < 0xE000 then
              some (Char.ofNat ((rr - 0xD800) * 1024 + (rr1 - 0xDC00) + 0x10000), r.drop 10)
            else some (replacementChar, r.drop 4)
          | none => some (replacementChar, r.drop 4)
        else some (Char.ofNat rr, r.drop 4)
    else none

/-- A string literal, the opening quote already consumed: the decoded characters
and the input after the closing quote.  Control characters below `0x20` are a
syntax error. -/
def unquote : Nat → List Char → Option (List Char × List Char)
  | 0, _ => none
  | _, [] => none
  | fuel + 1, c :: r =>
    if c = '"' then some ([], r)
    else if c = '\\' then
      match decodeEscape r with
      | none => none
      | some (ch, r1) => (unquote fuel r1).map (fun p => (ch :: p.1, p.2))
    else if c.toNat < 0x20 then none
    else (unquote fuel r).map (fun p => (c :: p.1, p.2))

/-! ### Maps -/

/-- Go string comparison `<` (bytewise on UTF-8, which is the code point order). -/
def keyLt : List Char → List Char → Bool
  | [], [] => false
  | [], _ :: _ => true
  | _ :: _, [] => false
  | a :: as, b :: bs => decide (a < b) || (a == b && keyLt as bs)

/-- Go `m[k] = v` on the sorted entry list. -/
def mapInsert {α : Type} (k : String) (v : JSON α) : List (String × JSON α) → List (String × JSON α)
  | [] => [(k, v)]
  | (k1, v1) :: rest =>
    if keyLt k.data k1.data then (k, v) :: (k1, v1) :: rest
    else if k = k1 then (k, v) :: rest
    else (k1, v1) :: mapInsert k v rest

/-- The map built from the members of an object in source order: a later
duplicate key overwrites the earlier entry. -/
def mkMap {α : Type} (ms : List (String × JSON α)) : List (String × JSON α) :=
  ms.foldl (fun m kv => mapInsert kv.1 kv.2 m) []

/-! ### Decoder -/

/-- Go `maxNestingDepth` of the scanner. -/
def maxNestingDepth : Nat := 10000

/-- Strip a literal word from the front of the input. -/
def expectWord : List Char → List Char → Option (List Char)
  | [], inp => some inp
  | _ :: _, [] => none
  | w :: ws, c :: cs => if w = c then expectWord ws cs else none

mutual
/-- The next JSON value of the input (leading white space skipped) and the
input that follows it.  `depth` counts the enclosing arrays and objects;
`conv` turns a number literal into a number. -/
def parseValue {α : Type} (conv : NumberLit → Option α) : Nat → Nat → List Char → Option (JSON α × List Char)
  | 0, _, _ => none
  | fuel + 1, depth, inp =>
    match skipSpace inp with
    | [] => none
    | c :: r =>
      if c = '\x7b' then
        if maxNestingDepth < depth + 1 then none
        else match skipSpace r with
          | [] => none
          | c1 :: r1 =>
            if c1 = '\x7d' then some (JSON.obj [], r1)
            else (parseMembers conv fuel (depth + 1) (c1 :: r1)).map
                   (fun p => (JSON.obj (mkMap p.1), p.2))
      else if c = '[' then
        if maxNestingDepth < depth + 1 then none
        else match skipSpace r with
          | [] => none
          | c1 :: r1 =>
            if c1 = ']' then some (JSON.arr [], r1)
            else (parseElements conv fuel (depth + 1) (c1 :: r1)).map
                   (fun p => (JSON.arr p.1, p.2))
      else if c = '"' then
        (unquote fuel r).map (fun p => (JSON.str (String.mk p.1), p.2))
      else if c = 't' then (expectWord ['r', 'u', 'e'] r).map (fun r1 => (JSON.bool true, r1))
      else if c = 'f' then (expectWord ['a', 'l', 's', 'e'] r).map (fun r1 => (JSON.bool false, r1))
      else if c = 'n' then (expectWord ['u', 'l', 'l'] r).map (fun r1 => (JSON.null, r1))
      else if c = '-' ∨ isDigit c then
        match scanNumber (c :: r) with
        | none => none
        | some (lit, r1) => (conv lit).map (fun f => (JSON.num f, r1))
      else none
/-- The elements of an array after `[` or `,`, up to and including `]`. -/
def parseElements {α : Type} (conv : NumberLit → Option α) : Nat → Nat → List Char → Option (List (JSON α) × List Char)
  | 0, _, _ => none
  | fuel + 1, depth, inp =>
    match parseValue conv fuel depth inp with
    | none => none
    | some (v, r) =>
      match skipSpace r with
      | [] => none
      | c :: r1 =>
        if c = ',' then (parseElements conv fuel depth r1).map (fun p => (v :: p.1, p.2))
        else if c = ']' then some ([v], r1)
        else none
/-- The members of an object after the opening brace or `,`, up to and including the closing brace. -/
def parseMembers {α : Type} (conv : NumberLit → Option α) : Nat → Nat → List Char → Option (List (String × JSON α) × List Char)
  | 0, _, _ => none
  | fuel + 1, depth, inp =>
    match skipSpace inp with
    | [] => none
    | q :: r =>
      if q = '"' then
        match unquote fuel r with
        | none => none
        | some (k, r1) =>
          match skipSpace r1 with
          | [] => none
          | c :: r2 =>
            if c = ':' then
              match parseValue conv fuel depth r2 with
              | none => none
              | some (v, r3) =>
                match skipSpace r3 with
                | [] => none
                | c1 :: r4 =>
                  if c1 = ',' then
                    (parseMembers conv fuel depth r4).map (fun p => ((String.mk k, v) :: p.1, p.2))
                  else if c1 = '\x7d' then some ([(String.mk k, v)], r4)
                  else none
            else none
      else none
end

/-- Go `json.NewDecoder(r.Body).Decode(&data)` for `data map[string]interface{}`:
the first JSON value of the body is decoded, what follows it is left unread.
`none` is a non-nil error (syntax error, unexpected end, a number outside the
float64 range, or a value that is neither an object nor `null`); `null` leaves
the map nil. -/
def decodeMap (body : List Char) : Option Value :=
  match parseValue convertNumber (2 * body.length + 1) 0 body with
  | none => none
  | some (JSON.null, _) => some JSON.null
  | some (JSON.obj kvs, _) => some (JSON.obj kvs)
  | some _ => none

/-! ### The JSON grammar

The specification speaks of valid JSON objects.  This section is that notion,
written from the grammar of RFC 8259 and independent of the decoder above: a
text is read into a syntax tree without any limit on the nesting, with the
numbers kept as literals and the members of an object as the text lists them.
`valueOf` is the Go value that such a tree stands for. -/

/-- A JSON value as a text writes it: numbers kept as literals, the members of
an object in the order of the text, repeated keys included. -/
abbrev SyntaxTree := JSON NumberLit

mutual
/-- The JSON grammar (RFC 8259) read from the front of a text: the syntax tree
of the first value and the text after it, `none` when the text does not start
with a JSON value.  White space between the tokens is skipped; an escape of an
unpaired surrogate stands for `U+FFFD`. -/
def readValue : Nat → List Char → Option (SyntaxTree × List Char)
  | 0, _ => none
  | fuel + 1, inp =>
    match skipSpace inp with
    | [] => none
    | c :: r =>
      if c = '\x7b' then
        match skipSpace r with
        | [] => none
        | c1 :: r1 =>
          if c1 = '\x7d' then some (JSON.obj [], r1)
          else (readMembers fuel (c1 :: r1)).map (fun p => (JSON.obj p.1, p.2))
      else if c = '[' then
        match skipSpace r with
        | [] => none
        | c1 :: r1 =>
          if c1 = ']' then some (JSON.arr [], r1)
          else (readElements fuel (c1 :: r1)).map (fun p => (JSON.arr p.1, p.2))
      else if c = '"' then
        (unquote fuel r).map (fun p => (JSON.str (String.mk p.1), p.2))
      else if c = 't' then (expectWord ['r', 'u', 'e'] r).map (fun r1 => (JSON.bool true, r1))
      else if c = 'f' then (expectWord ['a', 'l', 's', 'e'] r).map (fun r1 => (JSON.bool false, r1))
      else if c = 'n' then (expectWord ['u', 'l', 'l'] r).map (fun r1 => (JSON.null, r1))
      else if c = '-' ∨ isDigit c then
        (scanNumber (c :: r)).map (fun p => (JSON.num p.1, p.2))
      else none
/-- The elements of an array after `[` or `,`, up to and including `]`. -/
def readElements : Nat → List Char → Option (List SyntaxTree × List Char)
  | 0, _ => none
  | fuel + 1, inp =>
    match readValue fuel inp with
    | none => none
    | some (v, r) =>
      match skipSpace r with
      | [] => none
      | c :: r1 =>
        if c = ',' then (readElements fuel r1).map (fun p => (v :: p.1, p.2))
        else if c = ']' then some ([v], r1)
        else none
/-- The members of an object after the opening brace or `,`, up to and including the closing brace. -/
def readMembers : Nat → List Char → Option (List (String × SyntaxTree) × List Char)
  | 0, _ => none
  | fuel + 1, inp =>
    match skipSpace inp with
    | [] => none
    | q :: r =>
      if q = '"' then
        match unquote fuel r with
        | none => none
        | some (k, r1) =>
          match skipSpace r1 with
          | [] => none
          | c :: r2 =>
            if c = ':' then
              match readValue fuel r2 with
              | none => none
              | some (v, r3) =>
                match skipSpace r3 with
                | [] => none
                | c1 :: r4 =>
                  if c1 = ',' then
                    (readMembers fuel r4).map (fun p => ((String.mk k, v) :: p.1, p.2))
                  else if c1 = '\x7d' then some ([(String.mk k, v)], r4)
                  else none
            else none
      else none
end

/-- The text is one JSON value between optional white space: its syntax tree,
`none` when the text is not a JSON text. -/
def readDocument (text : List Char) : Option SyntaxTree :=
  match readValue (2 * text.length + 1) text with
  | none => none
  | some (t, rest) => if skipSpace rest = [] then some t else none

mutual
/-- The nesting of a value: the largest number of arrays and objects, one
inside the other, that it contains. -/
def JSON.nesting {α : Type} : JSON α → Nat
  | JSON.null => 0
  | JSON.bool _ => 0
  | JSON.num _ => 0
  | JSON.str _ => 0
  | JSON.arr xs => nestingList xs + 1
  | JSON.obj kvs => nestingMembers kvs + 1
/-- The largest nesting among the elements of an array. -/
def nestingList {α : Type} : List (JSON α) → Nat
  | [] => 0
  | x :: xs => max (JSON.nesting x) (nestingList xs)
/-- The largest nesting among the member values of an object. -/
def nestingMembers {α : Type} : List (String × JSON α) → Nat
  | [] => 0
  | (_, v) :: kvs => max (JSON.nesting v) (nestingMembers kvs)
end

mutual
/-- A syntax tree as a Go value: every number literal is the float64 that
`strconv.ParseFloat` gives (`none` when a literal is outside the float64
range), and an object is the map of its members, the last one of a repeated
key. -/
def valueOf : SyntaxTree → Option Value
  | JSON.null => some JSON.null
  | JSON.bool b => some (JSON.bool b)
  | JSON.num lit => (convertNumber lit).map JSON.num
  | JSON.str s => some (JSON.str s)
  | JSON.arr xs => (valuesOf xs).map JSON.arr
  | JSON.obj kvs => (membersOf kvs).map (fun l => JSON.obj (mkMap l))
/-- The elements of an array as Go values. -/
def valuesOf : List SyntaxTree → Option (List Value)
  | [] => some []
  | x :: xs =>
    match valueOf x, valuesOf xs with
    | some v, some vs => some (v :: vs)
    | _, _ => none
/-- The members of an object as Go values, in the order of the text. -/
def membersOf : List (String × SyntaxTree) → Option (List (String × Value))
  | [] => some []
  | (k, x) :: kvs =>
    match valueOf x, membersOf kvs with
    | some v, some l => some ((k, v) :: l)
    | _, _ => none
end

/-! ### Encoder -/

/-- The lower-case hexadecimal digit of a number below 16. -/
def hexDigit (n : Nat) : Char := if n < 10 then Char.ofNat (48 + n) else Char.ofNat (87 + n)

/-- One character of a string as the encoder writes it (Go `appendString`
with `escapeHTML` on). -/
def escapeChar (c : Char) : List Char :=
  if c = '"' ∨ c = '\\' then ['\\', c]
  else if c = Char.ofNat 8 then ['\\', 'b']
  else if c = Char.ofNat 12 then ['\\', 'f']
  else if c = '\n' then ['\\', 'n']
  else if c = '\r' then ['\\', 'r']
  else if c = '\t' then ['\\', 't']
  else if c.toNat < 0x20 ∨ c = '<' ∨ c = '>' ∨ c = '&' then
    ['\\', 'u', '0', '0', hexDigit (c.toNat / 16), hexDigit (c.toNat % 16)]
  else if c = Char.ofNat 0x2028 ∨ c = Char.ofNat 0x2029 then
    ['\\', 'u', '2', '0', '2', hexDigit (c.toNat % 16)]
  else [c]

/-- The characters of a string as the encoder writes them. -/
def escapeString : List Char → List Char
  | [] => []
  | c :: cs => escapeChar c ++ escapeString cs

/-- A string as a JSON string literal. -/
def quote (s : String) : List Char := '"' :: (escapeString s.data ++ ['"'])

/-- A new line and the indentation of the given depth (`SetIndent("", "\t")`). -/
def newline (depth : Nat) : List Char := '\n' :: List.replicate depth '\t'

mutual
/-- The indented encoding of a value at a nesting depth: `json.Indent` of the
compact encoding with prefix `""` and indent `"\t"`.  `fmt` is the encoder's
number formatting. -/
def encodeIndent {α : Type} (fmt : α → String) : Nat → JSON α → List Char
  | _, JSON.null => ['n', 'u', 'l', 'l']
  | _, JSON.bool true => ['t', 'r', 'u', 'e']
  | _, JSON.bool false => ['f', 'a', 'l', 's', 'e']
  | _, JSON.num f => (fmt f).data
  | _, JSON.str s => quote s
  | _, JSON.arr [] => ['[', ']']
  | d, JSON.arr (x :: xs) =>
    '[' :: (newline (d + 1) ++ (encodeElements fmt (d + 1) (x :: xs) ++ (newline d ++ [']'])))
  | _, JSON.obj [] => ['\x7b', '\x7d']
  | d, JSON.obj (kv :: kvs) =>
    '\x7b' :: (newline (d + 1) ++ (encodeMembers fmt (d + 1) (kv :: kvs) ++ (newline d ++ ['\x7d'])))
/-- The elements of an array, each on its own line, separated by commas. -/
def encodeElements {α : Type} (fmt : α → String) : Nat → List (JSON α) → List Char
  | _, [] => []
  | d, [x] => encodeIndent fmt d x
  | d, x :: y :: ys =>
    encodeIndent fmt d x ++ (',' :: (newline d ++ encodeElements fmt d (y :: ys)))
/-- The members of an object, each on its own line, separated by commas. -/
def encodeMembers {α : Type} (fmt : α → String) : Nat → List (String × JSON α) → List Char
  | _, [] => []
  | d, [(k, v)] => quote k ++ (':' :: ' ' :: encodeIndent fmt d v)
  | d, (k, v) :: kv :: kvs =>
    quote k ++ (':' :: ' ' :: (encodeIndent fmt d v ++
      (',' :: (newline d ++ encodeMembers fmt d (kv :: kvs)))))
end

/-- Go `Encoder.Encode(data)` after `SetIndent("", "\t")`: the indented value
and a final newline. -/
def encodeLine (fmt : Float64 → String) (data : Value) : String :=
  String.mk (encodeIndent fmt 0 data ++ ['\n'])

/-! ### Values in the decoder's form -/

/-- The keys of an entry list are strictly increasing. -/
def SortedKeys {α : Type} (kvs : List (String × JSON α)) : Prop :=
  kvs.Pairwise (fun a b => keyLt a.1.data b.1.data = true)

mutual
/-- A value under `depth` enclosing arrays and objects is in the form the
decoder produces: every map has its entries in strictly increasing key order,
and the nesting stays within `maxNestingDepth`. -/
def JSON.Canonical {α : Type} : Nat → JSON α → Prop
  | _, JSON.null => True
  | _, JSON.bool _ => True
  | _, JSON.num _ => True
  | _, JSON.str _ => True
  | d, JSON.arr xs => d + 1 ≤ maxNestingDepth ∧ canonicalList (d + 1) xs
  | d, JSON.obj kvs => d + 1 ≤ maxNestingDepth ∧ SortedKeys kvs ∧ canonicalMembers (d + 1) kvs
/-- Every element of an array is in the decoder's form. -/
def canonicalList {α : Type} : Nat → List (JSON α) → Prop
  | _, [] => True
  | d, x :: xs => JSON.Canonical d x ∧ canonicalList d xs
/-- Every member value of an object is in the decoder's form. -/
def canonicalMembers {α : Type} : Nat → List (String × JSON α) → Prop
  | _, [] => True
  | d, (_, v) :: kvs => JSON.Canonical d v ∧ canonicalMembers d kvs
end

mutual
/-- Every number inside the value satisfies `P`. -/
def JSON.AllNumbers {α : Type} (P : α → Prop) : JSON α → Prop
  | JSON.null => True
  | JSON.bool _ => True
  | JSON.num f => P f
  | JSON.str _ => True
  | JSON.arr xs => allNumbersList P xs
  | JSON.obj kvs => allNumbersMembers P kvs
/-- Every number inside the elements satisfies `P`. -/
def allNumbersList {α : Type} (P : α → Prop) : List (JSON α) → Prop
  | [] => True
  | x :: xs => JSON.AllNumbers P x ∧ allNumbersList P xs
/-- Every number inside the member values satisfies `P`. -/
def allNumbersMembers {α : Type} (P : α → Prop) : List (String × JSON α) → Prop
  | [] => True
  | (_, v) :: kvs => JSON.AllNumbers P v ∧ allNumbersMembers P kvs
end

/-- The float64 of a text that is exactly one number literal (the scanner
accepts all of it), as `strconv.ParseFloat` gives it. -/
def numberOf (text : List Char) : Option Float64 :=
  match scanNumber text with
  | some (lit, []) => convertNumber lit
  | _ => none

/-- The contract of the encoder's float formatting at `f`: the text written
for `f` is a JSON number literal that parses back to `f`. -/
def FormatsBack (fmt : Float64 → String) (f : Float64) : Prop :=
  numberOf (fmt f).data = some f

mutual
/-- The compact encoding of a value (Go `json.Marshal`). -/
def marshalValue {α : Type} (fmt : α → String) : JSON α → List Char
  | JSON.null => ['n', 'u', 'l', 'l']
  | JSON.bool true => ['t', 'r', 'u', 'e']
  | JSON.bool false => ['f', 'a', 'l', 's', 'e']
  | JSON.num f => (fmt f).data
  | JSON.str s => quote s
  | JSON.arr xs => '[' :: (marshalElements fmt xs ++ [']'])
  | JSON.obj kvs => '\x7b' :: (marshalMembers fmt kvs ++ ['\x7d'])
/-- The elements of an array, separated by commas. -/
def marshalElements {α : Type} (fmt : α → String) : List (JSON α) → List Char
  | [] => []
  | [x] => marshalValue fmt x
  | x :: y :: ys => marshalValue fmt x ++ (',' :: marshalElements fmt (y :: ys))
/-- The members of an object, separated by commas. -/
def marshalMembers {α : Type} (fmt : α → String) : List (String × JSON α) → List Char
  | [] => []
  | [(k, v)] => quote k ++ (':' :: marshalValue fmt v)
  | (k, v) :: kv :: kvs =>
    quote k ++ (':' :: (marshalValue fmt v ++ (',' :: marshalMembers fmt (kv :: kvs))))
end

/-- Go `json.Marshal`. -/
def marshal (fmt : Float64 → String) (v : Value) : String := String.mk (marshalValue fmt v)

/-- The text is one JSON value between optional white space (Go `json.Valid`):
its syntax tree, `none` when the text is not well-formed JSON. -/
def parseDocument (text : List Char) : Option SyntaxTree :=
  match parseValue some (2 * text.length + 1) 0 text with
  | none => none
  | some (v, rest) => if skipSpace rest = [] then some v else none

/-- The text is a well-formed JSON object. -/
def isJSONObject (text : List Char) : Bool :=
  match parseDocument text with
  | some (JSON.obj _) => true
  | _ => false

/-! ## The handlers of `server.go`, continued -/

/-- The `errMsg` map of `randomJSONPOSTRequest` (server.go:75). -/
def errMsg : Value :=
  JSON.obj [("err", JSON.str "Sorry, there seems to be an error with your JSON formatting.")]

/-- `randomJSONPOSTRequest` (server.go:65).  `fmt` is the float formatting of
the JSON encoder (`strconv.AppendFloat` with the shortest digits). -/
def randomJSONPOSTRequest (fmt : Float64 → String) (r : Request) (s : Exec) : Exec :=
  let s1 := s.headerSet "Content-Type" "application/json"
  if r.method = "POST" then
    let s2 := { s1 with bodyRead := true }
    match decodeMap r.body.data with
    | none =>
      let jsonErrMsg := marshal fmt errMsg
      let s3 := s2.headerSet "Content-Type" "application/json"
      httpError s3 jsonErrMsg StatusBadRequest
    | some data =>
      let s3 := s2.writeHeader StatusCreated
      s3.write (encodeLine fmt data)
  else
    httpError s1 "Sorry, Only POST methods are currently supported" StatusMethodNotAllowed

/-! ## go-json-spec-handler (`jsh`) -/

namespace jsh

/-- Modelled from the spec: the constant `jsh.ContentType` of the third-party
codec, which is not under src/: the resource-document (JSON:API) media type. -/
def ContentType : String := "application/vnd.api+json"

/-- Modelled from the spec: the resource object of the codec, which is not under
src/: type, id and the attributes when present (section 3). -/
structure Object where
  resourceType : String
  id : Option SyntaxTree
  attributes : Option SyntaxTree

/-- Modelled from the spec: the error results of the codec's parse operation,
which is not under src/ (section 4.5): a missing or incorrect content type, a
validation failure, malformed JSON. -/
inductive Error where
  | contentType
  | validation
  | malformed

/-- Modelled from the spec: the status the codec gives each error (section 4.5):
406 for a missing or incorrect content type and for a validation failure, 500
for malformed JSON. -/
def Error.status : Error → Nat
  | Error.contentType => StatusNotAcceptable
  | Error.validation => StatusNotAcceptable
  | Error.malformed => StatusInternalServerError

/-- The member of an object with the given name. -/
def member {α : Type} (key : String) : JSON α → Option (JSON α)
  | JSON.obj kvs => (kvs.find? (fun kv => kv.1 == key)).map (fun kv => kv.2)
  | _ => none

/-- Modelled from the spec: `jsh.ParseObject`, the parse operation of the
third-party codec, which is not under src/ (section 4.5 and section 9,
`parse(request) -> Resource | ValidationError | SyntaxError`).  The content
type is checked first; a body that is not well-formed JSON is a malformed
document; a document whose `data` member does not declare a non-empty `type`
fails validation. -/
def ParseObject (r : Request) : Except Error Object :=
  if r.header.get "Content-Type" = some ContentType then
    match parseDocument r.body.data with
    | none => Except.error Error.malformed
    | some doc =>
      match member "data" doc with
      | none => Except.error Error.validation
      | some resource =>
        match member "type" resource with
        | some (JSON.str t) =>
          if t = "" then Except.error Error.validation
          else Except.ok { resourceType := t, id := member "id" resource,
                           attributes := member "attributes" resource }
        | _ => Except.error Error.validation
  else Except.error Error.contentType

/-- Modelled from the spec: `jsh.Send`, the render operation of the third-party
codec, which is not under src/: a resource is answered 201 with the success
envelope, an error with its status and the error envelope; `render` is the
codec's serialisation of either. -/
def Send (render : Except Error Object → String) (s : Exec) (x : Except Error Object) : Exec :=
  let s1 := s.headerSet "Content-Type" ContentType
  match x with
  | Except.error err => (s1.writeHeader err.status).write (render x)
  | Except.ok _ => (s1.writeHeader StatusCreated).write (render x)

end jsh

/-- `JSONAPIPOSTRequest` (server.go:93). -/
def JSONAPIPOSTRequest (render : Except jsh.Error jsh.Object → String) (r : Request) (s : Exec) : Exec :=
  let s1 := s.headerSet "Content-Type" jsh.ContentType
  if r.method = "POST" then
    let s2 := { s1 with bodyRead := true }
    match jsh.ParseObject r with
    | Except.error err => jsh.Send render s2 (Except.error err)
    | Except.ok object => jsh.Send render s2 (Except.ok object)
  else
    httpError s1 "Sorry, Only POST methods are currently supported" StatusMethodNotAllowed

/-! ## tollbooth -/

namespace tollbooth

/-- Modelled from the spec: the rate limiter of the third-party middleware,
which is not under src/: a quota of `max` requests per second and the ordered
list of places the client key is looked up in. -/
structure Limiter where
  max : Nat
  ipLookups : List String
deriving DecidableEq, Repr

/-- Modelled from the spec: `tollbooth.NewLimiter(max, nil)`, which is not under
src/: a limiter with the quota `max` per second. -/
def NewLimiter (max : Nat) : Limiter := { max := max, ipLookups := [] }

/-- Modelled from the spec: `Limiter.SetIPLookups`, which is not under src/: the
ordered places the client key is taken from (section 4.1). -/
def Limiter.SetIPLookups (l : Limiter) (lookups : List String) : Limiter :=
  { l with ipLookups := lookups }

/-- Modelled from the spec: `tollbooth.LimitFuncHandler`, which is not under
src/ (section 4.1): the limiter is consulted first; when the quota is exceeded
the response is 429 and the handler is not invoked, otherwise control passes to
the handler.  `admits` is the verdict of the limiter's counters for the request. -/
def LimitFuncHandler (admits : Limiter → Request → Bool) (lmt : Limiter)
    (next : Request → Exec → Exec) (r : Request) (s : Exec) : Exec :=
  if admits lmt r then next r s
  else s.writeHeader StatusTooManyRequests

end tollbooth

/-! ## net/http: `ServeMux` -/

/-- The default `ServeMux`: `m` holds every registered pattern, `es` the
patterns ending in `/`, longest first. -/
structure ServeMux (β : Type) where
  m : List (String × β)
  es : List (String × β)

/-- Go `appendSorted`: insert before the first entry with a shorter pattern. -/
def appendSorted {β : Type} : List (String × β) → String × β → List (String × β)
  | [], e => [e]
  | x :: xs, e => if x.1.length < e.1.length then e :: x :: xs else x :: appendSorted xs e

/-- Go `ServeMux.Handle(pattern, handler)`. -/
def ServeMux.Handle {β : Type} (mux : ServeMux β) (pattern : String) (h : β) : ServeMux β :=
  { m := mux.m ++ [(pattern, h)],
    es := if pattern.data.getLast? = some '/' then appendSorted mux.es (pattern, h) else mux.es }

/-- Go `ServeMux.match`: an exact match first, then the longest registered
pattern ending in `/` that the path starts with. -/
def ServeMux.matchPath {β : Type} (mux : ServeMux β) (path : String) : Option β :=
  match mux.m.find? (fun e => e.1 == path) with
  | some e => some e.2
  | none => (mux.es.find? (fun e => e.1.data.isPrefixOf path.data)).map (fun e => e.2)

/-- Go `ServeMux.handler(host, path)` without host-specific patterns: the
pattern lookup for a path the mux has already brought into canonical form;
`none` is `NotFoundHandler()`.  It is the last step of `ServeMux.Handler`. -/
def ServeMux.handler {β : Type} (mux : ServeMux β) (path : String) : Option β :=
  mux.matchPath path

/-- A path split into its elements at every `/`. -/
def splitSlash : List Char → List (List Char)
  | [] => [[]]
  | c :: cs =>
    if c = '/' then [] :: splitSlash cs
    else match splitSlash cs with
      | [] => [[c]]
      | seg :: segs => (c :: seg) :: segs

/-- The elements of a rooted path after cleaning: empty and `.` elements are
dropped, a `..` element removes the element before it (none at the root).
`kept` holds the elements kept so far, last first. -/
def cleanElements (kept : List (List Char)) : List (List Char) → List (List Char)
  | [] => kept.reverse
  | seg :: segs =>
    if seg = [] ∨ seg = ['.'] then cleanElements kept segs
    else if seg = ['.', '.'] then cleanElements kept.tail segs
    else cleanElements (seg :: kept) segs

/-- The path elements written with a `/` before each. -/
def joinSlash : List (List Char) → List Char
  | [] => []
  | seg :: segs => '/' :: (seg ++ joinSlash segs)

/-- Go `path.Clean` on a rooted path (one that starts with `/`): the shortest
equivalent path, `/` when no element is left. -/
def pathClean (p : List Char) : List Char :=
  match cleanElements [] (splitSlash p) with
  | [] => ['/']
  | seg :: segs => joinSlash (seg :: segs)

/-- Go `cleanPath` of the mux: the canonical path of a request path.  An empty
path is `/`, a missing leading `/` is added, the path is cleaned with
`path.Clean`, and the trailing `/` that cleaning removed is put back. -/
def cleanPath (path : String) : String :=
  if path.data = [] then "/"
  else
    let p := if path.data.head? = some '/' then path.data else '/' :: path.data
    let np := pathClean p
    if p.getLast? = some '/' ∧ np ≠ ['/'] then String.mk (np ++ ['/']) else String.mk np

/-- Go `ServeMux.shouldRedirectRLocked(host, path)` without host-specific
patterns: the path itself is not registered but the path followed by `/` is. -/
def ServeMux.shouldRedirect {β : Type} (mux : ServeMux β) (path : String) : Bool :=
  if mux.m.any (fun e => e.1 == path) then false
  else if path.data = [] then false
  else if mux.m.any (fun e => e.1 == path ++ "/") then path.data.getLast? != some '/'
  else false

/-- The handler `ServeMux.Handler` returns for a request: a registered handler,
the mux's `RedirectHandler` to the URL with the given path and the request's
query, or `NotFoundHandler()`. -/
inductive Dispatch (β : Type) where
  | registered (h : β)
  | redirect (path : String)
  | notFound
deriving DecidableEq, Repr

/-- The result of `ServeMux.handler` as a handler. -/
def Dispatch.ofHandler {β : Type} : Option β → Dispatch β
  | some h => Dispatch.registered h
  | none => Dispatch.notFound

/-- Go `ServeMux.Handler(r)`, the handler the mux uses for a request.  The path
of a CONNECT request is matched as it is.  Any other request has its path
cleaned first, and when the cleaned path differs from the path of the request
the mux answers with a redirect to the cleaned path instead of a registered
handler. -/
def ServeMux.Handler {β : Type} (mux : ServeMux β) (r : Request) : Dispatch β :=
  if r.method = "CONNECT" then
    if mux.shouldRedirect r.path then Dispatch.redirect (r.path ++ "/")
    else Dispatch.ofHandler (mux.handler r.path)
  else
    if mux.shouldRedirect (cleanPath r.path) then
      Dispatch.redirect (cleanPath r.path ++ "/")
    else if cleanPath r.path ≠ r.path then
      Dispatch.redirect (cleanPath r.path)
    else Dispatch.ofHandler (mux.handler r.path)

/-- Go `ServeMux.ServeHTTP(w, r)`: a request whose target `r.RequestURI` is `*`
is answered 400 by the mux itself, without any handler (`none`); every other
request is handed to the handler that `ServeMux.Handler` returns for it. -/
def ServeMux.ServeHTTP {β : Type} (mux : ServeMux β) (requestURI : String) (r : Request) :
    Option (Dispatch β) :=
  if requestURI = "*" then none else some (mux.Handler r)

/-! ## `main` -/

/-- `REQUESTSPERSECOND` (server.go:18). -/
def REQUESTSPERSECOND : Nat := 10

/-- `rateLimiter` (server.go:20). -/
def rateLimiter : tollbooth.Limiter :=
  (tollbooth.NewLimiter REQUESTSPERSECOND).SetIPLookups ["RemoteAddr", "X-Forwarded-For", "X-Real-IP"]

/-- The four handler functions of `server.go`. -/
inductive Route where
  | healthCheck
  | standardGETRequest
  | randomJSONPOSTRequest
  | JSONAPIPOSTRequest
deriving DecidableEq, Repr

/-- What the handlers take from outside the program. -/
structure Env where
  /-- The value of `r1.Intn(1000)` in `standardGETRequest`. -/
  draw : Nat
  /-- The float formatting of the JSON encoder. -/
  formatFloat : Float64 → String
  /-- The serialisation of the JSON:API codec. -/
  render : Except jsh.Error jsh.Object → String
  /-- The verdict of the rate limiter's counters for a request. -/
  admits : tollbooth.Limiter → Request → Bool

/-- The handler function a route names. -/
def Route.handler (env : Env) : Route → Request → Exec → Exec
  | Route.healthCheck => Charidy.healthCheck
  | Route.standardGETRequest => Charidy.standardGETRequest env.draw
  | Route.randomJSONPOSTRequest => Charidy.randomJSONPOSTRequest env.formatFloat
  | Route.JSONAPIPOSTRequest => Charidy.JSONAPIPOSTRequest env.render

/-- `main` (server.go:22-25): the four registrations on the default mux, each
handler wrapped with `rateLimiter`. -/
def main : ServeMux (tollbooth.Limiter × Route) :=
  ((((ServeMux.mk [] []).Handle "/health" (rateLimiter, Route.healthCheck)).Handle
      "/" (rateLimiter, Route.standardGETRequest)).Handle
      "/json" (rateLimiter, Route.randomJSONPOSTRequest)).Handle
      "/jsonapi" (rateLimiter, Route.JSONAPIPOSTRequest)

/-- A registered handler as `main` wraps it: `tollbooth.LimitFuncHandler(lmt, h)`. -/
def limited (env : Env) (e : tollbooth.Limiter × Route) : Request → Exec → Exec :=
  tollbooth.LimitFuncHandler env.admits e.1 (e.2.handler env)

/-- A handler function run directly on a fresh writer. -/
def serve (h : Request → Exec → Exec) (r : Request) : Exec :=
  finishRequest (h r Exec.fresh)

/-! ## Auxiliary definitions for the statements and proofs -/

/-- A GET request, as the tests build it. -/
def getRequest (path : String) : Request :=
  { method := "GET", path := path, header := [], body := "", remoteAddr := "127.0.0.1:4242" }

/-- A request with a method, a header and a body. -/
def bodyRequest (method path : String) (header : Header) (body : String) : Request :=
  { method := method, path := path, header := header, body := body, remoteAddr := "127.0.0.1:4242" }

/-- A float formatting for examples: integers below `2^53` in decimal digits. -/
def formatInteger (f : Float64) : String :=
  let n : Nat := if 0 ≤ f.exp then f.mant * 2 ^ f.exp.toNat else f.mant / 2 ^ (-f.exp).toNat
  if f.neg then "-" ++ itoa n else itoa n

/-- An environment for examples: draw 42, every request admitted. -/
def exampleEnv : Env :=
  { draw := 42, formatFloat := formatInteger, render := fun _ => "", admits := fun _ _ => true }

/-- The input after a number literal does not continue the literal. -/
def NumberEnd (rest : List Char) : Prop :=
  ∀ c ∈ rest.head?, isDigit c = false ∧ c ≠ '.' ∧ c ≠ 'e' ∧ c ≠ 'E'

/-- What follows an encoded value: a comma or a new line. -/
def Delim (rest : List Char) : Prop := ∀ c ∈ rest.head?, c = ',' ∨ c = '\n'

/-- A character that starts a value: not white space and not a closing bracket. -/
def ValueStart (c : Char) : Prop := isSpace c = false ∧ c ≠ ']' ∧ c ≠ '\x7d'

/-- The text of `n + 1` arrays, one inside the other. -/
def nested : Nat → List Char
  | 0 => ['[', ']']
  | n + 1 => '[' :: (nested n ++ [']'])

/-- The syntax tree of `nested n`. -/
def nestedTree : Nat → SyntaxTree
  | 0 => JSON.arr []
  | n + 1 => JSON.arr [nestedTree n]

/-- A JSON object with one member, whose value is `nested n`. -/
def deepBody (n : Nat) : String :=
  String.mk ('\x7b' :: '"' :: 'a' :: '"' :: ':' :: (nested n ++ ['\x7d']))

/-! # Theorems -/

/-! ### White space -/

theorem skipSpace_cons_of_not_space (c : Char) (r : List Char) (h : isSpace c = false) :
    skipSpace (c :: r) = c :: r := by
  simp [skipSpace, h]

theorem skipSpace_cons_of_space (c : Char) (r : List Char) (h : isSpace c = true) :
    skipSpace (c :: r) = skipSpace r := by
  simp [skipSpace, h]

theorem skipSpace_tabs (n : Nat) (r : List Char) :
    skipSpace (List.replicate n '\t' ++ r) = skipSpace r := by
  induction n with
  | zero => rfl
  | succ n ih =>
    rw [List.replicate_succ, List.cons_append, skipSpace_cons_of_space _ _ (by decide), ih]

theorem skipSpace_newline (d : Nat) (r : List Char) :
    skipSpace (newline d ++ r) = skipSpace r := by
  rw [newline, List.cons_append, skipSpace_cons_of_space _ _ (by decide), skipSpace_tabs]

/-! ### The key order -/

theorem keyLt_irrefl (a : List Char) : keyLt a a = false := by
  induction a with
  | nil => rfl
  | cons c cs ih => simp [keyLt, ih]

theorem keyLt_trans : ∀ (a b c : List Char), keyLt a b = true → keyLt b c = true →
    keyLt a c = true
  | [], [], _, h, _ => by simp [keyLt] at h
  | [], _ :: _, [], _, h => by simp [keyLt] at h
  | [], _ :: _, _ :: _, _, _ => by simp [keyLt]
  | _ :: _, [], _, h, _ => by simp [keyLt] at h
  | _ :: _, _ :: _, [], _, h => by simp [keyLt] at h
  | x :: xs, y :: ys, z :: zs, h1, h2 => by
    simp only [keyLt, Bool.or_eq_true, decide_eq_true_eq, Bool.and_eq_true, beq_iff_eq] at h1 h2 ⊢
    rcases h1 with h1 | ⟨h1, h1'⟩
    · rcases h2 with h2 | ⟨h2, _⟩
      · exact Or.inl (lt_trans h1 h2)
      · exact Or.inl (h2 ▸ h1)
    · rcases h2 with h2 | ⟨h2, h2'⟩
      · exact Or.inl (h1 ▸ h2)
      · exact Or.inr ⟨h1.trans h2, keyLt_trans xs ys zs h1' h2'⟩

theorem keyLt_total : ∀ (a b : List Char), keyLt a b = false → a ≠ b → keyLt b a = true
  | [], [], _, h => absurd rfl h
  | [], _ :: _, h, _ => by simp [keyLt] at h
  | _ :: _, [], _, _ => by simp [keyLt]
  | x :: xs, y :: ys, h, hne => by
    simp only [keyLt, Bool.or_eq_false_iff, decide_eq_false_iff_not, Bool.and_eq_false_imp,
      beq_iff_eq] at h
    simp only [keyLt, Bool.or_eq_true, decide_eq_true_eq, Bool.and_eq_true, beq_iff_eq]
    rcases lt_trichotomy x y with hxy | hxy | hxy
    · exact absurd hxy h.1
    · subst hxy
      refine Or.inr ⟨rfl, keyLt_total xs ys (h.2 rfl) ?_⟩
      intro hxs; exact hne (by rw [hxs])
    · exact Or.inl hxy

theorem keyLt_asymm (a b : List Char) (h : keyLt a b = true) : keyLt b a = false := by
  cases hba : keyLt b a with
  | false => rfl
  | true => have := keyLt_trans a b a h hba; rw [keyLt_irrefl] at this; exact absurd this (by decide)

theorem mapInsert_last {α : Type} (k : String) (v : JSON α) :
    ∀ (m : List (String × JSON α)), (∀ e ∈ m, keyLt e.1.data k.data = true) →
      mapInsert k v m = m ++ [(k, v)]
  | [], _ => rfl
  | (k1, v1) :: rest, h => by
    have h1 : keyLt k1.data k.data = true := h (k1, v1) (List.mem_cons_self _ _)
    have h2 : keyLt k.data k1.data = false := keyLt_asymm _ _ h1
    have h3 : k ≠ k1 := by
      intro e; subst e; rw [keyLt_irrefl] at h1; exact absurd h1 (by decide)
    simp only [mapInsert, h2, h3, if_false, Bool.false_eq_true, List.cons_append]
    rw [mapInsert_last k v rest (fun e he => h e (List.mem_cons_of_mem _ he))]

theorem foldl_mapInsert_sorted {α : Type} :
    ∀ (l acc : List (String × JSON α)), SortedKeys (acc ++ l) →
      l.foldl (fun m kv => mapInsert kv.1 kv.2 m) acc = acc ++ l
  | [], acc, _ => by simp
  | (k, v) :: l, acc, h => by
    have hk : ∀ e ∈ acc, keyLt e.1.data k.data = true := by
      intro e he
      have := List.pairwise_append.1 h
      exact this.2.2 e he (k, v) (List.mem_cons_self _ _)
    simp only [List.foldl_cons]
    rw [mapInsert_last k v acc hk, foldl_mapInsert_sorted l (acc ++ [(k, v)]) (by simpa using h)]
    simp

theorem mkMap_sorted {α : Type} (l : List (String × JSON α)) (h : SortedKeys l) : mkMap l = l := by
  have := foldl_mapInsert_sorted l [] (by simpa using h)
  simpa [mkMap] using this

theorem mem_mapInsert {α : Type} (k : String) (v : JSON α) :
    ∀ (m : List (String × JSON α)) (e : String × JSON α), e ∈ mapInsert k v m →
      e = (k, v) ∨ e ∈ m
  | [], e, h => by simp [mapInsert] at h; exact Or.inl h
  | (k1, v1) :: rest, e, h => by
    simp only [mapInsert] at h
    split_ifs at h with h1 h2
    · simp only [List.mem_cons] at h ⊢
      tauto
    · simp only [List.mem_cons] at h ⊢
      tauto
    · simp only [List.mem_cons] at h ⊢
      rcases h with h | h
      · exact Or.inr (Or.inl h)
      · rcases mem_mapInsert k v rest e h with h | h
        · exact Or.inl h
        · exact Or.inr (Or.inr h)

theorem mapInsert_keys {α : Type} (k : String) (v : JSON α) :
    ∀ (m : List (String × JSON α)) (e : String × JSON α), e ∈ mapInsert k v m →
      e.1 = k ∨ e ∈ m := by
  intro m e h
  rcases mem_mapInsert k v m e h with h | h
  · exact Or.inl (by rw [h])
  · exact Or.inr h

theorem mapInsert_sortedKeys {α : Type} (k : String) (v : JSON α) :
    ∀ (m : List (String × JSON α)), SortedKeys m → SortedKeys (mapInsert k v m)
  | [], _ => by simp [mapInsert, SortedKeys]
  | (k1, v1) :: rest, h => by
    have hh := List.pairwise_cons.1 h
    simp only [mapInsert]
    split_ifs with h1 h2
    · refine List.pairwise_cons.2 ⟨?_, h⟩
      intro e he
      rcases List.mem_cons.1 he with he | he
      · rw [he]; exact h1
      · exact keyLt_trans _ _ _ h1 (hh.1 e he)
    · subst h2
      exact List.pairwise_cons.2 ⟨hh.1, hh.2⟩
    · refine List.pairwise_cons.2 ⟨?_, mapInsert_sortedKeys k v rest hh.2⟩
      intro e he
      rcases mapInsert_keys k v rest e he with he | he
      · rw [he]
        have h1' : keyLt k.data k1.data = false := by simpa using h1
        refine keyLt_total _ _ h1' ?_
        intro e2; exact h2 (by cases k; cases k1; simp_all)
      · exact hh.1 e he

theorem mkMap_sortedKeys {α : Type} (l : List (String × JSON α)) : SortedKeys (mkMap l) := by
  have : ∀ (l acc : List (String × JSON α)), SortedKeys acc →
      SortedKeys (l.foldl (fun m kv => mapInsert kv.1 kv.2 m) acc) := by
    intro l
    induction l with
    | nil => intro acc h; simpa using h
    | cons x xs ih => intro acc h; exact ih _ (mapInsert_sortedKeys _ _ _ h)
  exact this l [] List.Pairwise.nil

theorem mem_mkMap {α : Type} (l : List (String × JSON α)) :
    ∀ e ∈ mkMap l, e ∈ l := by
  have : ∀ (l acc : List (String × JSON α)) (e : String × JSON α),
      e ∈ l.foldl (fun m kv => mapInsert kv.1 kv.2 m) acc → e ∈ acc ∨ e ∈ l := by
    intro l
    induction l with
    | nil => intro acc e h; exact Or.inl (by simpa using h)
    | cons x xs ih =>
      intro acc e h
      rcases ih _ e h with h | h
      · rcases mem_mapInsert _ _ _ e h with h | h
        · exact Or.inr (by rw [h]; exact List.mem_cons_self _ _)
        · exact Or.inl h
      · exact Or.inr (List.mem_cons_of_mem _ h)
  intro e he
  rcases this l [] e he with h | h
  · simp at h
  · exact h

/-! ### Strings -/

theorem hexVal_hexDigit : ∀ k, k < 16 → hexVal (hexDigit k) = some k := by decide

theorem unquote_quote (fuel : Nat) (rest : List Char) :
    unquote (fuel + 1) ('"' :: rest) = some ([], rest) := by
  simp [unquote]

theorem decodeEscape_u00 (c : Char) (rest : List Char) (h : c.toNat < 128) :
    decodeEscape ('u' :: '0' :: '0' :: hexDigit (c.toNat / 16) :: hexDigit (c.toNat % 16) :: rest)
      = some (c, rest) := by
  have h1 : hexVal (hexDigit (c.toNat / 16)) = some (c.toNat / 16) :=
    hexVal_hexDigit _ (by omega)
  have h2 : hexVal (hexDigit (c.toNat % 16)) = some (c.toNat % 16) :=
    hexVal_hexDigit _ (by omega)
  have h0 : hexVal '0' = some 0 := by decide
  have h4 : hex4 ('0' :: '0' :: hexDigit (c.toNat / 16) :: hexDigit (c.toNat % 16) :: rest)
      = some c.toNat := by
    simp only [hex4, h0, h1, h2]
    congr 1; omega
  rw [decodeEscape]
  simp only [h4]
  have : ¬ (0xD800 ≤ c.toNat ∧ c.toNat < 0xE000) := by omega
  simp [this, Char.ofNat_toNat]

theorem unquote_escapeChar (c : Char) (fuel : Nat) (rest : List Char) :
    unquote (fuel + 1) (escapeChar c ++ rest) =
      (unquote fuel rest).map (fun p => (c :: p.1, p.2)) := by
  unfold escapeChar
  split_ifs with h1 h2 h3 h4 h5 h6 h7 h8
  · rcases h1 with h1 | h1 <;> subst h1 <;> simp [unquote, decodeEscape]
  · subst h2; simp [unquote, decodeEscape]
  · subst h3; simp [unquote, decodeEscape]
  · subst h4; simp [unquote, decodeEscape]
  · subst h5; simp [unquote, decodeEscape]
  · subst h6; simp [unquote, decodeEscape]
  · have hc : c.toNat < 128 := by
      rcases h7 with h | h | h | h
      · omega
      · subst h; decide
      · subst h; decide
      · subst h; decide
    simp only [List.cons_append, List.nil_append, unquote]
    simp [decodeEscape_u00 c rest hc]
  · rcases h8 with h | h <;> subst h <;> simp [unquote, decodeEscape, hex4, hexVal, hexDigit, isDigit, getu4]
  · have q1 : c ≠ '"' := fun e => h1 (Or.inl e)
    have q2 : c ≠ '\\' := fun e => h1 (Or.inr e)
    have q3 : ¬ c.toNat < 32 := fun e => h7 (Or.inl e)
    simp [unquote, q1, q2, q3]

theorem unquote_escapeString :
    ∀ (s : List Char) (rest : List Char) (fuel : Nat), s.length < fuel →
      unquote fuel (escapeString s ++ '"' :: rest) = some (s, rest)
  | [], rest, fuel, h => by
    obtain ⟨f, rfl⟩ : ∃ f, fuel = f + 1 := ⟨fuel - 1, by simp at h; omega⟩
    simp [escapeString, unquote]
  | c :: s, rest, fuel, h => by
    obtain ⟨f, rfl⟩ : ∃ f, fuel = f + 1 := ⟨fuel - 1, by simp at h; omega⟩
    have hs : s.length < f := by simp at h; omega
    rw [escapeString, List.append_assoc, unquote_escapeChar,
      unquote_escapeString s rest f hs]
    rfl

theorem escapeChar_length (c : Char) : 1 ≤ (escapeChar c).length := by
  unfold escapeChar
  split_ifs <;> simp

theorem escapeString_length : ∀ (s : List Char), s.length ≤ (escapeString s).length
  | [] => by simp [escapeString]
  | c :: s => by
    have := escapeChar_length c
    have := escapeString_length s
    simp only [escapeString, List.length_cons, List.length_append]
    omega

theorem quote_length (s : String) : s.data.length + 2 ≤ (quote s).length := by
  have := escapeString_length s.data
  simp only [quote, List.length_cons, List.length_append, List.length_nil]
  omega

theorem unquote_quoted (s : String) (rest : List Char) (fuel : Nat) (h : s.data.length < fuel) :
    ∃ t, quote s ++ rest = '"' :: t ∧ unquote fuel t = some (s.data, rest) := by
  refine ⟨escapeString s.data ++ '"' :: rest, by simp [quote], ?_⟩
  exact unquote_escapeString s.data rest fuel h

/-! ### Number literals -/

theorem takeDigits_append (rest : List Char) (h : NumberEnd rest) :
    ∀ (inp : List Char),
      takeDigits (inp ++ rest) = ((takeDigits inp).1, (takeDigits inp).2 ++ rest)
  | [] => by
    cases rest with
    | nil => rfl
    | cons c t =>
      have := (h c (by simp)).1
      simp [takeDigits, this]
  | c :: cs => by
    by_cases hc : isDigit c = true
    · have ih := takeDigits_append rest h cs
      rw [List.cons_append, takeDigits, if_pos hc, ih, takeDigits, if_pos hc]
    · simp only [List.cons_append, takeDigits, hc, if_false, Bool.false_eq_true]
      rfl

theorem scanInt_append (rest : List Char) (h : NumberEnd rest) (inp : List Char)
    (x out : List Char) (hs : scanInt inp = some (x, out)) :
    scanInt (inp ++ rest) = some (x, out ++ rest) := by
  cases inp with
  | nil => simp [scanInt] at hs
  | cons c r =>
    simp only [scanInt] at hs
    simp only [List.cons_append, scanInt]
    split_ifs at hs ⊢ with h1 h2
    · simp only [Option.some.injEq, Prod.mk.injEq] at hs
      rw [← hs.1, ← hs.2]
    · simp only [Option.some.injEq, Prod.mk.injEq] at hs
      rw [takeDigits_append rest h r, ← hs.1, ← hs.2]

theorem scanFrac_append (rest : List Char) (h : NumberEnd rest) (inp : List Char)
    (x out : List Char) (hs : scanFrac inp = some (x, out)) :
    scanFrac (inp ++ rest) = some (x, out ++ rest) := by
  cases inp with
  | nil =>
    simp only [scanFrac, Option.some.injEq, Prod.mk.injEq] at hs
    rw [← hs.1, ← hs.2]
    cases rest with
    | nil => rfl
    | cons c t =>
      have := (h c (by simp)).2.1
      simp [scanFrac, this]
  | cons c r =>
    simp only [scanFrac] at hs
    simp only [List.cons_append, scanFrac]
    rw [takeDigits_append rest h r]
    split_ifs at hs ⊢ with h1 h2
    · simp only [Option.some.injEq] at hs
      rw [hs]
    · simp only [Option.some.injEq, Prod.mk.injEq] at hs
      rw [← hs.1, ← hs.2]; rfl

theorem scanExpDigits_append (rest : List Char) (h : NumberEnd rest) (neg : Bool)
    (inp : List Char) (x : Bool × List Char) (out : List Char)
    (hs : scanExpDigits neg inp = some (x.1, x.2, out)) :
    scanExpDigits neg (inp ++ rest) = some (x.1, x.2, out ++ rest) := by
  simp only [scanExpDigits] at hs ⊢
  rw [takeDigits_append rest h inp]
  split_ifs at hs ⊢ with h1
  simp only [Option.some.injEq, Prod.mk.injEq] at hs
  rw [hs.1, hs.2.1, hs.2.2]

theorem scanExp_append (rest : List Char) (h : NumberEnd rest) (inp : List Char)
    (x : Bool × List Char) (out : List Char) (hs : scanExp inp = some (x.1, x.2, out)) :
    scanExp (inp ++ rest) = some (x.1, x.2, out ++ rest) := by
  cases inp with
  | nil =>
    simp only [scanExp, Option.some.injEq, Prod.mk.injEq] at hs
    rw [← hs.1, ← hs.2.1, ← hs.2.2]
    cases rest with
    | nil => rfl
    | cons c t =>
      have := (h c (by simp)).2.2
      simp [scanExp, this.1, this.2]
  | cons e r =>
    simp only [scanExp] at hs
    simp only [List.cons_append, scanExp]
    split_ifs at hs ⊢ with h1
    · cases r with
      | nil => simp at hs
      | cons s r1 =>
        simp only at hs
        simp only [List.cons_append]
        split_ifs at hs ⊢ with h2 h3
        · exact scanExpDigits_append rest h _ r1 x out hs
        · exact scanExpDigits_append rest h _ r1 x out hs
        · exact scanExpDigits_append rest h _ (s :: r1) x out hs
    · simp only [Option.some.injEq, Prod.mk.injEq] at hs
      rw [← hs.1, ← hs.2.1, ← hs.2.2]; rfl

theorem scanUnsigned_append (rest : List Char) (h : NumberEnd rest) (neg : Bool)
    (inp : List Char) (lit : NumberLit) (out : List Char)
    (hs : scanUnsigned neg inp = some (lit, out)) :
    scanUnsigned neg (inp ++ rest) = some (lit, out ++ rest) := by
  simp only [scanUnsigned] at hs ⊢
  cases h1 : scanInt inp with
  | none => simp [h1] at hs
  | some p1 =>
    obtain ⟨int, r1⟩ := p1
    rw [h1] at hs
    simp only at hs
    rw [scanInt_append rest h inp int r1 h1]
    simp only
    cases h2 : scanFrac r1 with
    | none => simp [h2] at hs
    | some p2 =>
      obtain ⟨frac, r2⟩ := p2
      rw [h2] at hs
      simp only at hs
      rw [scanFrac_append rest h r1 frac r2 h2]
      simp only
      cases h3 : scanExp r2 with
      | none => simp [h3] at hs
      | some p3 =>
        obtain ⟨en, ex, r3⟩ := p3
        rw [h3] at hs
        simp only [Option.some.injEq, Prod.mk.injEq] at hs
        rw [scanExp_append rest h r2 (en, ex) r3 h3]
        simp only [Option.some.injEq, Prod.mk.injEq]
        exact ⟨hs.1, by rw [hs.2]⟩

theorem scanNumber_append (rest : List Char) (h : NumberEnd rest) (inp : List Char)
    (lit : NumberLit) (out : List Char) (hs : scanNumber inp = some (lit, out)) :
    scanNumber (inp ++ rest) = some (lit, out ++ rest) := by
  cases inp with
  | nil => simp [scanNumber] at hs
  | cons c r =>
    simp only [scanNumber] at hs
    simp only [List.cons_append, scanNumber]
    split_ifs at hs ⊢ with h1
    · exact scanUnsigned_append rest h _ r lit out hs
    · exact scanUnsigned_append rest h _ (c :: r) lit out hs

theorem scanNumber_head (inp : List Char) (lit : NumberLit) (out : List Char)
    (hs : scanNumber inp = some (lit, out)) :
    ∃ c r, inp = c :: r ∧ (c = '-' ∨ isDigit c = true) := by
  cases inp with
  | nil => simp [scanNumber] at hs
  | cons c r =>
    refine ⟨c, r, rfl, ?_⟩
    by_cases h1 : c = '-'
    · exact Or.inl h1
    · right
      simp only [scanNumber, if_neg h1, scanUnsigned] at hs
      cases h2 : scanInt (c :: r) with
      | none => simp [h2] at hs
      | some p =>
        simp only [scanInt] at h2
        split_ifs at h2 with h3 h4
        · subst h3; decide
        · exact h4

/-- A formatted float followed by a delimiter is scanned back to the same float. -/
theorem formatsBack_scan (fmt : Float64 → String) (f : Float64) (h : FormatsBack fmt f)
    (rest : List Char) (hr : NumberEnd rest) :
    ∃ c r lit, (fmt f).data ++ rest = c :: r ∧ (c = '-' ∨ isDigit c = true) ∧
      scanNumber (c :: r) = some (lit, rest) ∧ convertNumber lit = some f := by
  simp only [FormatsBack, numberOf] at h
  cases hs : scanNumber (fmt f).data with
  | none => simp [hs] at h
  | some p =>
    obtain ⟨lit, out⟩ := p
    rw [hs] at h
    cases out with
    | cons a b => simp at h
    | nil =>
      simp only at h
      obtain ⟨c, r, hc, hd⟩ := scanNumber_head _ _ _ hs
      refine ⟨c, r ++ rest, lit, by rw [hc]; rfl, hd, ?_, h⟩
      have := scanNumber_append rest hr _ lit [] hs
      rw [hc] at this
      simpa using this

/-! ### The decoder on the encoder's output -/

theorem Delim.numberEnd {rest : List Char} (h : Delim rest) : NumberEnd rest := by
  intro c hc
  rcases h c hc with e | e <;> subst e <;> decide

theorem delim_comma (r : List Char) : Delim (',' :: r) := by
  intro c hc; simp at hc; exact Or.inl hc.symm

theorem delim_newline (k : Nat) (r : List Char) : Delim (newline k ++ r) := by
  intro c hc; simp [newline] at hc; exact Or.inr hc.symm

theorem newline_length (k : Nat) : (newline k).length = k + 1 := by simp [newline]

theorem valueStart_digit (c : Char) (h : c = '-' ∨ isDigit c = true) : ValueStart c := by
  rcases h with h | h
  · subst h; exact ⟨by decide, by decide, by decide⟩
  · refine ⟨?_, ?_, ?_⟩
    · simp only [isSpace, Bool.or_eq_false_iff, beq_eq_false_iff_ne]
      refine ⟨⟨⟨?_, ?_⟩, ?_⟩, ?_⟩ <;> (intro e; subst e; revert h; decide)
    · intro e; subst e; revert h; decide
    · intro e; subst e; revert h; decide

theorem encodeIndent_head (fmt : Float64 → String) (d : Nat) (v : Value)
    (hn : v.AllNumbers (FormatsBack fmt)) :
    ∃ c r, encodeIndent fmt d v = c :: r ∧ ValueStart c := by
  cases v with
  | null => exact ⟨'n', _, by rw [encodeIndent], by decide, by decide, by decide⟩
  | bool b =>
    cases b
    · exact ⟨'f', _, by rw [encodeIndent], by decide, by decide, by decide⟩
    · exact ⟨'t', _, by rw [encodeIndent], by decide, by decide, by decide⟩
  | num f =>
    simp only [JSON.AllNumbers] at hn
    obtain ⟨c, r, lit, h1, h2, _, _⟩ := formatsBack_scan fmt f hn [] (by intro c hc; simp at hc)
    refine ⟨c, r, ?_, valueStart_digit c h2⟩
    rw [encodeIndent]; simpa using h1
  | str s => exact ⟨'"', _, by rw [encodeIndent, quote], by decide, by decide, by decide⟩
  | arr xs =>
    cases xs with
    | nil => exact ⟨'[', _, by rw [encodeIndent], by decide, by decide, by decide⟩
    | cons x xs => exact ⟨'[', _, by rw [encodeIndent], by decide, by decide, by decide⟩
  | obj kvs =>
    cases kvs with
    | nil => exact ⟨'\x7b', _, by rw [encodeIndent], by decide, by decide, by decide⟩
    | cons x xs => exact ⟨'\x7b', _, by rw [encodeIndent], by decide, by decide, by decide⟩

theorem parseValue_space {α : Type} (conv : NumberLit → Option α) (fuel d : Nat) (c : Char)
    (inp : List Char) (h : isSpace c = true) :
    parseValue conv fuel d (c :: inp) = parseValue conv fuel d inp := by
  cases fuel with
  | zero => simp [parseValue]
  | succ f => rw [parseValue, parseValue, skipSpace_cons_of_space c inp h]

theorem parseValue_newline {α : Type} (conv : NumberLit → Option α) (fuel d k : Nat)
    (inp : List Char) :
    parseValue conv fuel d (newline k ++ inp) = parseValue conv fuel d inp := by
  cases fuel with
  | zero => simp [parseValue]
  | succ f => rw [parseValue, parseValue, skipSpace_newline]

theorem parseElements_newline {α : Type} (conv : NumberLit → Option α) (fuel d k : Nat)
    (inp : List Char) :
    parseElements conv fuel d (newline k ++ inp) = parseElements conv fuel d inp := by
  cases fuel with
  | zero => simp [parseElements]
  | succ f => rw [parseElements, parseElements, parseValue_newline]

theorem parseMembers_newline {α : Type} (conv : NumberLit → Option α) (fuel d k : Nat)
    (inp : List Char) :
    parseMembers conv fuel d (newline k ++ inp) = parseMembers conv fuel d inp := by
  cases fuel with
  | zero => simp [parseMembers]
  | succ f => rw [parseMembers, parseMembers, skipSpace_newline]

theorem fuel_succ {n fuel : Nat} (h : n < fuel) : ∃ f, fuel = f + 1 := ⟨fuel - 1, by omega⟩

theorem encodeElements_head (fmt : Float64 → String) (d : Nat) (x : Value) (xs : List Value)
    (hn : x.AllNumbers (FormatsBack fmt)) :
    ∃ c r, encodeElements fmt d (x :: xs) = c :: r ∧ ValueStart c := by
  obtain ⟨c, r, h1, h2⟩ := encodeIndent_head fmt d x hn
  cases xs with
  | nil => exact ⟨c, r, by rw [encodeElements, h1], h2⟩
  | cons y ys => exact ⟨c, _, by rw [encodeElements, h1]; rfl, h2⟩

theorem encodeMembers_head (fmt : Float64 → String) (d : Nat) (kv : String × Value)
    (kvs : List (String × Value)) :
    ∃ r, encodeMembers fmt d (kv :: kvs) = '"' :: r := by
  obtain ⟨k, v⟩ := kv
  cases kvs with
  | nil => exact ⟨_, by rw [encodeMembers, quote]; rfl⟩
  | cons y ys => exact ⟨_, by rw [encodeMembers, quote]; rfl⟩

/-! The branches of the parser, one step each. -/

theorem parseValue_word_null {α : Type} (conv : NumberLit → Option α) (f d : Nat)
    (rest : List Char) :
    parseValue conv (f + 1) d ('n' :: 'u' :: 'l' :: 'l' :: rest) = some (JSON.null, rest) := by
  simp [parseValue, skipSpace, isSpace, expectWord]

theorem parseValue_word_true {α : Type} (conv : NumberLit → Option α) (f d : Nat)
    (rest : List Char) :
    parseValue conv (f + 1) d ('t' :: 'r' :: 'u' :: 'e' :: rest) = some (JSON.bool true, rest) := by
  simp [parseValue, skipSpace, isSpace, expectWord]

theorem parseValue_word_false {α : Type} (conv : NumberLit → Option α) (f d : Nat)
    (rest : List Char) :
    parseValue conv (f + 1) d ('f' :: 'a' :: 'l' :: 's' :: 'e' :: rest)
      = some (JSON.bool false, rest) := by
  simp [parseValue, skipSpace, isSpace, expectWord]

theorem parseValue_string {α : Type} (conv : NumberLit → Option α) (f d : Nat)
    (t s rest : List Char) (h : unquote f t = some (s, rest)) :
    parseValue conv (f + 1) d ('"' :: t) = some (JSON.str (String.mk s), rest) := by
  simp [parseValue, skipSpace, isSpace, h]

theorem parseValue_number {α : Type} (conv : NumberLit → Option α) (f d : Nat)
    (c : Char) (r rest : List Char) (lit : NumberLit) (x : α)
    (hc : c = '-' ∨ isDigit c = true) (hs : scanNumber (c :: r) = some (lit, rest))
    (hx : conv lit = some x) :
    parseValue conv (f + 1) d (c :: r) = some (JSON.num x, rest) := by
  have hv := valueStart_digit c hc
  rw [parseValue, skipSpace_cons_of_not_space c r hv.1]
  have e1 : c ≠ '\x7b' := by rcases hc with h | h <;> (intro e; subst e; revert h; decide)
  have e2 : c ≠ '[' := by rcases hc with h | h <;> (intro e; subst e; revert h; decide)
  have e3 : c ≠ '"' := by rcases hc with h | h <;> (intro e; subst e; revert h; decide)
  have e4 : c ≠ 't' := by rcases hc with h | h <;> (intro e; subst e; revert h; decide)
  have e5 : c ≠ 'f' := by rcases hc with h | h <;> (intro e; subst e; revert h; decide)
  have e6 : c ≠ 'n' := by rcases hc with h | h <;> (intro e; subst e; revert h; decide)
  simp only [if_neg e1, if_neg e2, if_neg e3, if_neg e4, if_neg e5, if_neg e6, if_pos hc, hs, hx,
    Option.map_some']

theorem parseValue_empty_array {α : Type} (conv : NumberLit → Option α) (f d : Nat)
    (rest : List Char) (hd : d + 1 ≤ maxNestingDepth) :
    parseValue conv (f + 1) d ('[' :: ']' :: rest) = some (JSON.arr [], rest) := by
  have hd' : ¬ maxNestingDepth < d + 1 := by omega
  simp [parseValue, skipSpace, isSpace, hd']

theorem parseValue_empty_object {α : Type} (conv : NumberLit → Option α) (f d : Nat)
    (rest : List Char) (hd : d + 1 ≤ maxNestingDepth) :
    parseValue conv (f + 1) d ('\x7b' :: '\x7d' :: rest) = some (JSON.obj [], rest) := by
  have hd' : ¬ maxNestingDepth < d + 1 := by omega
  simp [parseValue, skipSpace, isSpace, hd']

theorem parseValue_array {α : Type} (conv : NumberLit → Option α) (f d k : Nat)
    (c : Char) (r : List Char) (hd : d + 1 ≤ maxNestingDepth) (hc : ValueStart c) :
    parseValue conv (f + 1) d ('[' :: (newline k ++ c :: r)) =
      (parseElements conv f (d + 1) (c :: r)).map (fun p => (JSON.arr p.1, p.2)) := by
  have hd' : ¬ maxNestingDepth < d + 1 := by omega
  rw [parseValue, skipSpace_cons_of_not_space _ _ (by decide)]
  simp only [skipSpace_newline, skipSpace_cons_of_not_space c r hc.1]
  simp [hd', hc.2.1]

theorem parseValue_object {α : Type} (conv : NumberLit → Option α) (f d k : Nat)
    (r : List Char) (hd : d + 1 ≤ maxNestingDepth) :
    parseValue conv (f + 1) d ('\x7b' :: (newline k ++ '"' :: r)) =
      (parseMembers conv f (d + 1) ('"' :: r)).map (fun p => (JSON.obj (mkMap p.1), p.2)) := by
  have hd' : ¬ maxNestingDepth < d + 1 := by omega
  rw [parseValue, skipSpace_cons_of_not_space _ _ (by decide)]
  simp only [skipSpace_newline, skipSpace_cons_of_not_space '"' r (by decide)]
  simp [hd']

theorem parseElements_last {α : Type} (conv : NumberLit → Option α) (f d k : Nat)
    (inp rest : List Char) (v : JSON α)
    (h : parseValue conv f d inp = some (v, newline k ++ ']' :: rest)) :
    parseElements conv (f + 1) d inp = some ([v], rest) := by
  rw [parseElements, h]
  simp only [skipSpace_newline, skipSpace_cons_of_not_space ']' rest (by decide)]
  simp

theorem parseElements_more {α : Type} (conv : NumberLit → Option α) (f d k : Nat)
    (inp r : List Char) (v : JSON α)
    (h : parseValue conv f d inp = some (v, ',' :: (newline k ++ r))) :
    parseElements conv (f + 1) d inp =
      (parseElements conv f d r).map (fun p => (v :: p.1, p.2)) := by
  rw [parseElements, h]
  simp only [skipSpace_cons_of_not_space ',' _ (by decide)]
  simp [parseElements_newline]

theorem parseMembers_last {α : Type} (conv : NumberLit → Option α) (f d k : Nat)
    (t key r rest : List Char) (v : JSON α)
    (h1 : unquote f t = some (key, ':' :: ' ' :: r))
    (h2 : parseValue conv f d r = some (v, newline k ++ '\x7d' :: rest)) :
    parseMembers conv (f + 1) d ('"' :: t) = some ([(String.mk key, v)], rest) := by
  rw [parseMembers, skipSpace_cons_of_not_space _ _ (by decide)]
  simp only [if_true, h1, skipSpace_cons_of_not_space ':' _ (by decide),
    parseValue_space conv f d ' ' r (by decide), h2, skipSpace_newline,
    skipSpace_cons_of_not_space '\x7d' rest (by decide)]
  simp

theorem parseMembers_more {α : Type} (conv : NumberLit → Option α) (f d k : Nat)
    (t key r r2 : List Char) (v : JSON α)
    (h1 : unquote f t = some (key, ':' :: ' ' :: r))
    (h2 : parseValue conv f d r = some (v, ',' :: (newline k ++ r2))) :
    parseMembers conv (f + 1) d ('"' :: t) =
      (parseMembers conv f d r2).map (fun p => ((String.mk key, v) :: p.1, p.2)) := by
  rw [parseMembers, skipSpace_cons_of_not_space _ _ (by decide)]
  simp only [if_true, h1, skipSpace_cons_of_not_space ':' _ (by decide),
    parseValue_space conv f d ' ' r (by decide), h2,
    skipSpace_cons_of_not_space ',' _ (by decide)]
  simp [parseMembers_newline]

mutual
theorem parseValue_encodeIndent (fmt : Float64 → String) :
    ∀ (v : Value) (d : Nat) (rest : List Char) (fuel : Nat),
      v.Canonical d → v.AllNumbers (FormatsBack fmt) → Delim rest →
      (encodeIndent fmt d v).length < fuel →
      parseValue convertNumber fuel d (encodeIndent fmt d v ++ rest) = some (v, rest)
  | JSON.null, d, rest, fuel, _, _, _, hf => by
    obtain ⟨f, rfl⟩ := fuel_succ hf
    rw [encodeIndent]; exact parseValue_word_null _ f d rest
  | JSON.bool true, d, rest, fuel, _, _, _, hf => by
    obtain ⟨f, rfl⟩ := fuel_succ hf
    rw [encodeIndent]; exact parseValue_word_true _ f d rest
  | JSON.bool false, d, rest, fuel, _, _, _, hf => by
    obtain ⟨f, rfl⟩ := fuel_succ hf
    rw [encodeIndent]; exact parseValue_word_false _ f d rest
  | JSON.num x, d, rest, fuel, _, hn, hr, hf => by
    obtain ⟨f, rfl⟩ := fuel_succ hf
    simp only [JSON.AllNumbers] at hn
    obtain ⟨c, r, lit, h1, h2, h3, h4⟩ := formatsBack_scan fmt x hn rest hr.numberEnd
    rw [encodeIndent, h1]
    exact parseValue_number _ f d c r rest lit x h2 h3 h4
  | JSON.str s, d, rest, fuel, _, _, _, hf => by
    obtain ⟨f, rfl⟩ := fuel_succ hf
    rw [encodeIndent] at hf ⊢
    have hl := quote_length s
    obtain ⟨t, h1, h2⟩ := unquote_quoted s rest f (by omega)
    rw [h1]
    exact parseValue_string _ f d t s.data rest h2
  | JSON.arr [], d, rest, fuel, hc, _, _, hf => by
    obtain ⟨f, rfl⟩ := fuel_succ hf
    simp only [JSON.Canonical] at hc
    rw [encodeIndent]
    exact parseValue_empty_array _ f d rest hc.1
  | JSON.arr (x :: xs), d, rest, fuel, hc, hn, _, hf => by
    obtain ⟨f, rfl⟩ := fuel_succ hf
    simp only [JSON.Canonical] at hc
    simp only [JSON.AllNumbers] at hn
    have hx : x.AllNumbers (FormatsBack fmt) := by
      rw [allNumbersList] at hn; exact hn.1
    obtain ⟨c, r, h1, h2⟩ := encodeElements_head fmt (d + 1) x xs hx
    have ih := parseElements_encodeElements fmt (x :: xs) (d + 1) d rest f (by simp) hc.2 hn (by
      rw [encodeIndent] at hf
      simp only [List.length_cons, List.length_append, newline_length, List.length_nil] at hf
      omega)
    have e : encodeIndent fmt d (JSON.arr (x :: xs)) ++ rest =
        '[' :: (newline (d + 1) ++ c :: (r ++ (newline d ++ ']' :: rest))) := by
      rw [encodeIndent, h1]; simp
    rw [h1] at ih
    rw [e, parseValue_array _ f d (d + 1) c _ hc.1 h2]
    rw [List.cons_append] at ih
    rw [ih]; rfl
  | JSON.obj [], d, rest, fuel, hc, _, _, hf => by
    obtain ⟨f, rfl⟩ := fuel_succ hf
    simp only [JSON.Canonical] at hc
    rw [encodeIndent]
    exact parseValue_empty_object _ f d rest hc.1
  | JSON.obj (kv :: kvs), d, rest, fuel, hc, hn, _, hf => by
    obtain ⟨f, rfl⟩ := fuel_succ hf
    simp only [JSON.Canonical] at hc
    simp only [JSON.AllNumbers] at hn
    obtain ⟨r, h1⟩ := encodeMembers_head fmt (d + 1) kv kvs
    have ih := parseMembers_encodeMembers fmt (kv :: kvs) (d + 1) d rest f (by simp) hc.2.2 hn (by
      rw [encodeIndent] at hf
      simp only [List.length_cons, List.length_append, newline_length, List.length_nil] at hf
      omega)
    have e : encodeIndent fmt d (JSON.obj (kv :: kvs)) ++ rest =
        '\x7b' :: (newline (d + 1) ++ '"' :: (r ++ (newline d ++ '\x7d' :: rest))) := by
      rw [encodeIndent, h1]; simp
    rw [h1] at ih
    rw [e, parseValue_object _ f d (d + 1) _ hc.1]
    rw [List.cons_append] at ih
    rw [ih]
    simp only [Option.map_some', mkMap_sorted _ hc.2.1]
theorem parseElements_encodeElements (fmt : Float64 → String) :
    ∀ (l : List Value) (d k : Nat) (rest : List Char) (fuel : Nat),
      l ≠ [] → canonicalList d l → allNumbersList (FormatsBack fmt) l →
      (encodeElements fmt d l).length + 1 < fuel →
      parseElements convertNumber fuel d (encodeElements fmt d l ++ (newline k ++ ']' :: rest))
        = some (l, rest)
  | [], _, _, _, _, h, _, _, _ => absurd rfl h
  | [x], d, k, rest, fuel, _, hc, hn, hf => by
    obtain ⟨f, rfl⟩ := fuel_succ hf
    simp only [canonicalList] at hc
    simp only [allNumbersList] at hn
    rw [encodeElements] at hf ⊢
    exact parseElements_last _ f d k _ rest x
      (parseValue_encodeIndent fmt x d _ f hc.1 hn.1 (delim_newline _ _) (by omega))
  | x :: y :: ys, d, k, rest, fuel, _, hc, hn, hf => by
    obtain ⟨f, rfl⟩ := fuel_succ hf
    rw [canonicalList] at hc
    rw [allNumbersList] at hn
    rw [encodeElements] at hf ⊢
    simp only [List.length_cons, List.length_append, newline_length] at hf
    have ih := parseElements_encodeElements fmt (y :: ys) d k rest f (by simp) hc.2 hn.2
      (by omega)
    have hv := parseValue_encodeIndent fmt x d
      (',' :: (newline d ++ (encodeElements fmt d (y :: ys) ++ (newline k ++ ']' :: rest)))) f
      hc.1 hn.1 (delim_comma _) (by omega)
    have e : encodeIndent fmt d x ++ (',' :: (newline d ++ encodeElements fmt d (y :: ys))) ++
        (newline k ++ ']' :: rest) =
        encodeIndent fmt d x ++
          (',' :: (newline d ++ (encodeElements fmt d (y :: ys) ++ (newline k ++ ']' :: rest)))) := by
      simp
    rw [e, parseElements_more _ f d d _ _ x hv, ih]; rfl
theorem parseMembers_encodeMembers (fmt : Float64 → String) :
    ∀ (l : List (String × Value)) (d k : Nat) (rest : List Char) (fuel : Nat),
      l ≠ [] → canonicalMembers d l → allNumbersMembers (FormatsBack fmt) l →
      (encodeMembers fmt d l).length + 1 < fuel →
      parseMembers convertNumber fuel d (encodeMembers fmt d l ++ (newline k ++ '\x7d' :: rest))
        = some (l, rest)
  | [], _, _, _, _, h, _, _, _ => absurd rfl h
  | [(key, v)], d, k, rest, fuel, _, hc, hn, hf => by
    obtain ⟨f, rfl⟩ := fuel_succ hf
    simp only [canonicalMembers] at hc
    simp only [allNumbersMembers] at hn
    rw [encodeMembers] at hf ⊢
    simp only [List.length_cons, List.length_append] at hf
    have hl := quote_length key
    obtain ⟨t, h1, h2⟩ := unquote_quoted key
      (':' :: ' ' :: (encodeIndent fmt d v ++ (newline k ++ '\x7d' :: rest))) f (by omega)
    have hv := parseValue_encodeIndent fmt v d (newline k ++ '\x7d' :: rest) f hc.1 hn.1
      (delim_newline _ _) (by omega)
    have e : quote key ++ (':' :: ' ' :: encodeIndent fmt d v) ++ (newline k ++ '\x7d' :: rest) =
        '"' :: t := by
      rw [← h1]; simp
    rw [e]
    exact parseMembers_last _ f d k t key.data _ rest v h2 hv
  | (key, v) :: kv :: kvs, d, k, rest, fuel, _, hc, hn, hf => by
    obtain ⟨f, rfl⟩ := fuel_succ hf
    rw [canonicalMembers] at hc
    rw [allNumbersMembers] at hn
    rw [encodeMembers] at hf ⊢
    simp only [List.length_cons, List.length_append, newline_length] at hf
    have hl := quote_length key
    have ih := parseMembers_encodeMembers fmt (kv :: kvs) d k rest f (by simp) hc.2 hn.2
      (by omega)
    obtain ⟨t, h1, h2⟩ := unquote_quoted key
      (':' :: ' ' :: (encodeIndent fmt d v ++ (',' :: (newline d ++
        (encodeMembers fmt d (kv :: kvs) ++ (newline k ++ '\x7d' :: rest)))))) f (by omega)
    have hv := parseValue_encodeIndent fmt v d (',' :: (newline d ++
        (encodeMembers fmt d (kv :: kvs) ++ (newline k ++ '\x7d' :: rest)))) f hc.1 hn.1
      (delim_comma _) (by omega)
    have e : quote key ++ (':' :: ' ' :: (encodeIndent fmt d v ++
        (',' :: (newline d ++ encodeMembers fmt d (kv :: kvs))))) ++ (newline k ++ '\x7d' :: rest) =
        '"' :: t := by
      rw [← h1]; simp
    rw [e, parseMembers_more _ f d d t key.data _ _ v h2 hv, ih]; rfl
end

/-! ### What the decoder produces -/

theorem canonicalMembers_iff {α : Type} (d : Nat) :
    ∀ (l : List (String × JSON α)), canonicalMembers d l ↔ ∀ e ∈ l, JSON.Canonical d e.2
  | [] => by simp [canonicalMembers]
  | (k, v) :: l => by
    rw [canonicalMembers, canonicalMembers_iff d l]
    simp

theorem parse_canonical {α : Type} (conv : NumberLit → Option α) :
    ∀ (fuel : Nat),
      (∀ d inp v rest, parseValue conv fuel d inp = some (v, rest) → JSON.Canonical d v) ∧
      (∀ d inp l rest, parseElements conv fuel d inp = some (l, rest) → canonicalList d l) ∧
      (∀ d inp l rest, parseMembers conv fuel d inp = some (l, rest) → canonicalMembers d l)
  | 0 => by
    refine ⟨?_, ?_, ?_⟩ <;> intro d inp v rest h
    · simp [parseValue] at h
    · simp [parseElements] at h
    · simp [parseMembers] at h
  | f + 1 => by
    obtain ⟨ihv, ihe, ihm⟩ := parse_canonical conv f
    refine ⟨?_, ?_, ?_⟩
    · intro d inp v rest h
      rw [parseValue] at h
      cases hs : skipSpace inp with
      | nil => simp [hs] at h
      | cons c r =>
        simp only [hs] at h
        split_ifs at h with h1 h2 h3 h4 h5 h6 h7 h8 h9
        · cases hs1 : skipSpace r with
          | nil => simp [hs1] at h
          | cons c1 r1 =>
            simp only [hs1] at h
            split_ifs at h with h10
            · simp only [Option.some.injEq, Prod.mk.injEq] at h
              rw [← h.1]
              simp only [JSON.Canonical, canonicalMembers, and_true]
              exact ⟨by omega, List.Pairwise.nil⟩
            · simp only [Option.map_eq_some'] at h
              obtain ⟨p, hp, he⟩ := h
              simp only [Prod.mk.injEq] at he
              rw [← he.1]
              simp only [JSON.Canonical]
              refine ⟨by omega, mkMap_sortedKeys _, ?_⟩
              have := ihm (d + 1) _ p.1 p.2 hp
              rw [canonicalMembers_iff] at this ⊢
              intro e he2
              exact this e (mem_mkMap _ e he2)
        · cases hs1 : skipSpace r with
          | nil => simp [hs1] at h
          | cons c1 r1 =>
            simp only [hs1] at h
            split_ifs at h with h10
            · simp only [Option.some.injEq, Prod.mk.injEq] at h
              rw [← h.1]
              simp only [JSON.Canonical, canonicalList, and_true]
              omega
            · simp only [Option.map_eq_some'] at h
              obtain ⟨p, hp, he⟩ := h
              simp only [Prod.mk.injEq] at he
              rw [← he.1]
              simp only [JSON.Canonical]
              exact ⟨by omega, ihe (d + 1) _ p.1 p.2 hp⟩
        · simp only [Option.map_eq_some'] at h
          obtain ⟨p, _, he⟩ := h
          simp only [Prod.mk.injEq] at he
          rw [← he.1]; simp [JSON.Canonical]
        · simp only [Option.map_eq_some'] at h
          obtain ⟨p, _, he⟩ := h
          simp only [Prod.mk.injEq] at he
          rw [← he.1]; simp [JSON.Canonical]
        · simp only [Option.map_eq_some'] at h
          obtain ⟨p, _, he⟩ := h
          simp only [Prod.mk.injEq] at he
          rw [← he.1]; simp [JSON.Canonical]
        · simp only [Option.map_eq_some'] at h
          obtain ⟨p, _, he⟩ := h
          simp only [Prod.mk.injEq] at he
          rw [← he.1]; simp [JSON.Canonical]
        · cases hn : scanNumber (c :: r) with
          | none => simp [hn] at h
          | some q =>
            simp only [hn, Option.map_eq_some'] at h
            obtain ⟨p, _, he⟩ := h
            simp only [Prod.mk.injEq] at he
            rw [← he.1]; simp [JSON.Canonical]
    · intro d inp l rest h
      rw [parseElements] at h
      cases hv : parseValue conv f d inp with
      | none => simp [hv] at h
      | some q =>
        obtain ⟨v, r⟩ := q
        simp only [hv] at h
        cases hs : skipSpace r with
        | nil => simp [hs] at h
        | cons c r1 =>
          simp only [hs] at h
          split_ifs at h with h1 h2
          · simp only [Option.map_eq_some'] at h
            obtain ⟨p, hp, he⟩ := h
            simp only [Prod.mk.injEq] at he
            rw [← he.1, canonicalList]
            exact ⟨ihv d inp v r hv, ihe d _ p.1 p.2 hp⟩
          · simp only [Option.some.injEq, Prod.mk.injEq] at h
            rw [← h.1, canonicalList, canonicalList]
            exact ⟨ihv d inp v r hv, trivial⟩
    · intro d inp l rest h
      rw [parseMembers] at h
      cases hs : skipSpace inp with
      | nil => simp [hs] at h
      | cons q r =>
        simp only [hs] at h
        split_ifs at h with h0
        cases hu : unquote f r with
        | none => simp [hu] at h
        | some p0 =>
          obtain ⟨k, r1⟩ := p0
          simp only [hu] at h
          cases hs1 : skipSpace r1 with
          | nil => simp [hs1] at h
          | cons c r2 =>
            simp only [hs1] at h
            split_ifs at h with h1
            cases hv : parseValue conv f d r2 with
            | none => simp [hv] at h
            | some pv =>
              obtain ⟨v, r3⟩ := pv
              simp only [hv] at h
              cases hs3 : skipSpace r3 with
              | nil => simp [hs3] at h
              | cons c1 r4 =>
                simp only [hs3] at h
                split_ifs at h with h2 h3
                · simp only [Option.map_eq_some'] at h
                  obtain ⟨p, hp, he⟩ := h
                  simp only [Prod.mk.injEq] at he
                  rw [← he.1, canonicalMembers]
                  exact ⟨ihv d r2 v r3 hv, ihm d _ p.1 p.2 hp⟩
                · simp only [Option.some.injEq, Prod.mk.injEq] at h
                  rw [← h.1, canonicalMembers, canonicalMembers]
                  exact ⟨ihv d r2 v r3 hv, trivial⟩

theorem decodeMap_cases (body : List Char) (data : Value) (h : decodeMap body = some data) :
    ∃ rest, parseValue convertNumber (2 * body.length + 1) 0 body = some (data, rest) ∧
      (data = JSON.null ∨ ∃ kvs, data = JSON.obj kvs) := by
  simp only [decodeMap] at h
  cases hp : parseValue convertNumber (2 * body.length + 1) 0 body with
  | none => simp [hp] at h
  | some p =>
    obtain ⟨v, rest⟩ := p
    rw [hp] at h
    cases v with
    | null => simp only [Option.some.injEq] at h; exact ⟨rest, by rw [← h], Or.inl h.symm⟩
    | obj kvs => simp only [Option.some.injEq] at h; exact ⟨rest, by rw [← h], Or.inr ⟨kvs, h.symm⟩⟩
    | bool b => simp at h
    | num f => simp at h
    | str s => simp at h
    | arr xs => simp at h

theorem decodeMap_canonical (body : List Char) (data : Value) (h : decodeMap body = some data) :
    data.Canonical 0 := by
  obtain ⟨rest, hp, _⟩ := decodeMap_cases body data h
  exact (parse_canonical convertNumber _).1 0 body data rest hp

theorem decodeMap_encodeLine (fmt : Float64 → String) (data : Value)
    (hk : data = JSON.null ∨ ∃ kvs, data = JSON.obj kvs) (hc : data.Canonical 0)
    (hn : data.AllNumbers (FormatsBack fmt)) :
    decodeMap (encodeLine fmt data).data = some data := by
  have hp := parseValue_encodeIndent fmt data 0 ['\n']
    (2 * (encodeIndent fmt 0 data ++ ['\n']).length + 1) hc hn
    (by intro c hc; simp at hc; exact Or.inr hc.symm)
    (by simp only [List.length_append, List.length_cons, List.length_nil]; omega)
  simp only [decodeMap, encodeLine, hp]
  rcases hk with hk | ⟨kvs, hk⟩ <;> subst hk <;> rfl

/-! ### The fuel of the decoder is enough -/

theorem skipSpace_length : ∀ (inp : List Char), (skipSpace inp).length ≤ inp.length
  | [] => by simp [skipSpace]
  | c :: r => by
    have := skipSpace_length r
    by_cases h : isSpace c = true
    · rw [skipSpace_cons_of_space c r h, List.length_cons]; omega
    · rw [skipSpace_cons_of_not_space c r (by simpa using h)]

theorem skipSpace_cons_length {inp r : List Char} {c : Char} (h : skipSpace inp = c :: r) :
    r.length < inp.length := by
  have := skipSpace_length inp
  rw [h, List.length_cons] at this
  omega

theorem takeDigits_length : ∀ (inp : List Char), (takeDigits inp).2.length ≤ inp.length
  | [] => by simp [takeDigits]
  | c :: r => by
    have := takeDigits_length r
    by_cases h : isDigit c = true
    · rw [takeDigits, if_pos h, List.length_cons]; simp only; omega
    · rw [takeDigits, if_neg h]

theorem scanInt_length (inp x out : List Char) (h : scanInt inp = some (x, out)) :
    out.length < inp.length := by
  cases inp with
  | nil => simp [scanInt] at h
  | cons c r =>
    simp only [scanInt] at h
    have := takeDigits_length r
    split_ifs at h
    · simp only [Option.some.injEq, Prod.mk.injEq] at h
      rw [← h.2, List.length_cons]; omega
    · simp only [Option.some.injEq, Prod.mk.injEq] at h
      rw [← h.2, List.length_cons]; omega

theorem scanFrac_length (inp x out : List Char) (h : scanFrac inp = some (x, out)) :
    out.length ≤ inp.length := by
  cases inp with
  | nil =>
    simp only [scanFrac, Option.some.injEq, Prod.mk.injEq] at h
    rw [← h.2]
  | cons c r =>
    simp only [scanFrac] at h
    have := takeDigits_length r
    split_ifs at h
    · simp only [Option.some.injEq] at h
      have e : out = (takeDigits r).2 := by rw [h]
      rw [e, List.length_cons]; omega
    · simp only [Option.some.injEq, Prod.mk.injEq] at h
      rw [← h.2]

theorem scanExpDigits_length (neg : Bool) (inp : List Char) (x : Bool × List Char)
    (out : List Char) (h : scanExpDigits neg inp = some (x.1, x.2, out)) :
    out.length ≤ inp.length := by
  simp only [scanExpDigits] at h
  have := takeDigits_length inp
  split_ifs at h
  simp only [Option.some.injEq, Prod.mk.injEq] at h
  rw [← h.2.2]; exact this

theorem scanExp_length (inp : List Char) (x : Bool × List Char) (out : List Char)
    (h : scanExp inp = some (x.1, x.2, out)) : out.length ≤ inp.length := by
  cases inp with
  | nil =>
    simp only [scanExp, Option.some.injEq, Prod.mk.injEq] at h
    rw [← h.2.2]
  | cons e r =>
    simp only [scanExp] at h
    split_ifs at h
    · cases r with
      | nil => simp at h
      | cons s r1 =>
        simp only at h
        split_ifs at h
        · have := scanExpDigits_length _ _ x out h
          simp only [List.length_cons]; omega
        · have := scanExpDigits_length _ _ x out h
          simp only [List.length_cons]; omega
        · have := scanExpDigits_length _ _ x out h
          simp only [List.length_cons] at this ⊢; omega
    · simp only [Option.some.injEq, Prod.mk.injEq] at h
      rw [← h.2.2]

theorem scanUnsigned_length (neg : Bool) (inp : List Char) (lit : NumberLit) (out : List Char)
    (h : scanUnsigned neg inp = some (lit, out)) : out.length < inp.length := by
  simp only [scanUnsigned] at h
  cases h1 : scanInt inp with
  | none => simp [h1] at h
  | some p1 =>
    obtain ⟨int, r1⟩ := p1
    rw [h1] at h
    simp only at h
    cases h2 : scanFrac r1 with
    | none => simp [h2] at h
    | some p2 =>
      obtain ⟨frac, r2⟩ := p2
      rw [h2] at h
      simp only at h
      cases h3 : scanExp r2 with
      | none => simp [h3] at h
      | some p3 =>
        obtain ⟨en, ex, r3⟩ := p3
        rw [h3] at h
        simp only [Option.some.injEq, Prod.mk.injEq] at h
        have a1 := scanInt_length _ _ _ h1
        have a2 := scanFrac_length _ _ _ h2
        have a3 := scanExp_length r2 (en, ex) r3 h3
        rw [← h.2]; omega

theorem scanNumber_length (inp : List Char) (lit : NumberLit) (out : List Char)
    (h : scanNumber inp = some (lit, out)) : out.length < inp.length := by
  cases inp with
  | nil => simp [scanNumber] at h
  | cons c r =>
    simp only [scanNumber] at h
    split_ifs at h
    · have := scanUnsigned_length _ _ _ _ h
      simp only [List.length_cons]; omega
    · exact scanUnsigned_length _ _ _ _ h

theorem expectWord_length : ∀ (w inp out : List Char), expectWord w inp = some out →
    out.length ≤ inp.length
  | [], inp, out, h => by
    simp only [expectWord, Option.some.injEq] at h
    rw [h]
  | _ :: _, [], _, h => by simp [expectWord] at h
  | a :: w, c :: r, out, h => by
    simp only [expectWord] at h
    split_ifs at h
    have := expectWord_length w r out h
    simp only [List.length_cons]; omega

theorem decodeEscape_length (inp : List Char) (ch : Char) (out : List Char)
    (h : decodeEscape inp = some (ch, out)) : out.length < inp.length := by
  cases inp with
  | nil => simp [decodeEscape] at h
  | cons e r =>
    simp only [decodeEscape] at h
    split_ifs at h
    all_goals first
      | (simp only [Option.some.injEq, Prod.mk.injEq] at h
         rw [← h.2, List.length_cons]; omega)
      | (cases h4 : hex4 r with
         | none => simp [h4] at h
         | some rr =>
           simp only [h4] at h
           split_ifs at h
           · cases h5 : getu4 (List.drop 4 r) with
             | none =>
               simp only [h5, Option.some.injEq, Prod.mk.injEq] at h
               rw [← h.2, List.length_cons, List.length_drop]; omega
             | some rr1 =>
               simp only [h5] at h
               split_ifs at h
               · simp only [Option.some.injEq, Prod.mk.injEq] at h
                 rw [← h.2, List.length_cons, List.length_drop]; omega
               · simp only [Option.some.injEq, Prod.mk.injEq] at h
                 rw [← h.2, List.length_cons, List.length_drop]; omega
           · simp only [Option.some.injEq, Prod.mk.injEq] at h
             rw [← h.2, List.length_cons, List.length_drop]; omega)

theorem unquote_length : ∀ (fuel : Nat) (inp s out : List Char),
    unquote fuel inp = some (s, out) → out.length < inp.length
  | 0, _, _, _, h => by simp [unquote] at h
  | _ + 1, [], _, _, h => by simp [unquote] at h
  | f + 1, c :: r, s, out, h => by
    simp only [unquote] at h
    split_ifs at h
    · simp only [Option.some.injEq, Prod.mk.injEq] at h
      rw [← h.2, List.length_cons]; omega
    · cases h1 : decodeEscape r with
      | none => simp [h1] at h
      | some p =>
        obtain ⟨ch, r1⟩ := p
        simp only [h1, Option.map_eq_some'] at h
        obtain ⟨q, hq, he⟩ := h
        simp only [Prod.mk.injEq] at he
        have a1 := decodeEscape_length _ _ _ h1
        have a2 := unquote_length f r1 q.1 q.2 hq
        rw [← he.2, List.length_cons]; omega
    · simp only [Option.map_eq_some'] at h
      obtain ⟨q, hq, he⟩ := h
      simp only [Prod.mk.injEq] at he
      have a2 := unquote_length f r q.1 q.2 hq
      rw [← he.2, List.length_cons]; omega

theorem unquote_fuel : ∀ (f1 f2 : Nat) (inp : List Char), inp.length < f1 → inp.length < f2 →
    unquote f1 inp = unquote f2 inp
  | 0, _, _, h, _ => by omega
  | _ + 1, 0, _, _, h => by omega
  | _ + 1, _ + 1, [], _, _ => by simp [unquote]
  | a + 1, b + 1, c :: r, h1, h2 => by
    simp only [List.length_cons] at h1 h2
    simp only [unquote]
    split_ifs
    · rfl
    · cases h3 : decodeEscape r with
      | none => rfl
      | some p =>
        have := decodeEscape_length _ _ _ h3
        simp only
        rw [unquote_fuel a b p.2 (by omega) (by omega)]
    · rfl
    · rw [unquote_fuel a b r (by omega) (by omega)]

theorem parse_length {α : Type} (conv : NumberLit → Option α) :
    ∀ (fuel : Nat),
      (∀ d inp v rest, parseValue conv fuel d inp = some (v, rest) →
        rest.length < inp.length) ∧
      (∀ d inp l rest, parseElements conv fuel d inp = some (l, rest) →
        rest.length < inp.length) ∧
      (∀ d inp l rest, parseMembers conv fuel d inp = some (l, rest) →
        rest.length < inp.length)
  | 0 => by
    refine ⟨?_, ?_, ?_⟩ <;> intro d inp v rest h
    · simp [parseValue] at h
    · simp [parseElements] at h
    · simp [parseMembers] at h
  | f + 1 => by
    obtain ⟨ihv, ihe, ihm⟩ := parse_length conv f
    refine ⟨?_, ?_, ?_⟩
    · intro d inp v rest h
      rw [parseValue] at h
      cases hs : skipSpace inp with
      | nil => simp [hs] at h
      | cons c r =>
        have l0 := skipSpace_cons_length hs
        simp only [hs] at h
        split_ifs at h with h1 h2 h3 h4 h5 h6 h7 h8 h9
        · cases hs1 : skipSpace r with
          | nil => simp [hs1] at h
          | cons c1 r1 =>
            have l1 := skipSpace_cons_length hs1
            simp only [hs1] at h
            split_ifs at h with h10
            · simp only [Option.some.injEq, Prod.mk.injEq] at h
              rw [← h.2]; omega
            · simp only [Option.map_eq_some'] at h
              obtain ⟨p, hp, he⟩ := h
              simp only [Prod.mk.injEq] at he
              have := ihm (d + 1) _ p.1 p.2 hp
              simp only [List.length_cons] at this
              rw [← he.2]; omega
        · cases hs1 : skipSpace r with
          | nil => simp [hs1] at h
          | cons c1 r1 =>
            have l1 := skipSpace_cons_length hs1
            simp only [hs1] at h
            split_ifs at h with h10
            · simp only [Option.some.injEq, Prod.mk.injEq] at h
              rw [← h.2]; omega
            · simp only [Option.map_eq_some'] at h
              obtain ⟨p, hp, he⟩ := h
              simp only [Prod.mk.injEq] at he
              have := ihe (d + 1) _ p.1 p.2 hp
              simp only [List.length_cons] at this
              rw [← he.2]; omega
        · simp only [Option.map_eq_some'] at h
          obtain ⟨p, hp, he⟩ := h
          simp only [Prod.mk.injEq] at he
          have := unquote_length _ _ _ _ hp
          rw [← he.2]; omega
        · simp only [Option.map_eq_some'] at h
          obtain ⟨p, hp, he⟩ := h
          simp only [Prod.mk.injEq] at he
          have := expectWord_length _ _ _ hp
          rw [← he.2]; omega
        · simp only [Option.map_eq_some'] at h
          obtain ⟨p, hp, he⟩ := h
          simp only [Prod.mk.injEq] at he
          have := expectWord_length _ _ _ hp
          rw [← he.2]; omega
        · simp only [Option.map_eq_some'] at h
          obtain ⟨p, hp, he⟩ := h
          simp only [Prod.mk.injEq] at he
          have := expectWord_length _ _ _ hp
          rw [← he.2]; omega
        · cases hn : scanNumber (c :: r) with
          | none => simp [hn] at h
          | some q =>
            simp only [hn, Option.map_eq_some'] at h
            obtain ⟨p, _, he⟩ := h
            simp only [Prod.mk.injEq] at he
            have := scanNumber_length _ _ _ hn
            simp only [List.length_cons] at this
            rw [← he.2]; omega
    · intro d inp l rest h
      rw [parseElements] at h
      cases hv : parseValue conv f d inp with
      | none => simp [hv] at h
      | some q =>
        obtain ⟨v, r⟩ := q
        have l0 := ihv d inp v r hv
        simp only [hv] at h
        cases hs : skipSpace r with
        | nil => simp [hs] at h
        | cons c r1 =>
          have l1 := skipSpace_cons_length hs
          simp only [hs] at h
          split_ifs at h with h1 h2
          · simp only [Option.map_eq_some'] at h
            obtain ⟨p, hp, he⟩ := h
            simp only [Prod.mk.injEq] at he
            have := ihe d _ p.1 p.2 hp
            rw [← he.2]; omega
          · simp only [Option.some.injEq, Prod.mk.injEq] at h
            rw [← h.2]; omega
    · intro d inp l rest h
      rw [parseMembers] at h
      cases hs : skipSpace inp with
      | nil => simp [hs] at h
      | cons q r =>
        have l0 := skipSpace_cons_length hs
        simp only [hs] at h
        split_ifs at h with h0
        cases hu : unquote f r with
        | none => simp [hu] at h
        | some p0 =>
          obtain ⟨k, r1⟩ := p0
          have l1 := unquote_length _ _ _ _ hu
          simp only [hu] at h
          cases hs1 : skipSpace r1 with
          | nil => simp [hs1] at h
          | cons c r2 =>
            have l2 := skipSpace_cons_length hs1
            simp only [hs1] at h
            split_ifs at h with h1
            cases hv : parseValue conv f d r2 with
            | none => simp [hv] at h
            | some pv =>
              obtain ⟨v, r3⟩ := pv
              have l3 := ihv d r2 v r3 hv
              simp only [hv] at h
              cases hs3 : skipSpace r3 with
              | nil => simp [hs3] at h
              | cons c1 r4 =>
                have l4 := skipSpace_cons_length hs3
                simp only [hs3] at h
                split_ifs at h with h2 h3
                · simp only [Option.map_eq_some'] at h
                  obtain ⟨p, hp, he⟩ := h
                  simp only [Prod.mk.injEq] at he
                  have := ihm d _ p.1 p.2 hp
                  rw [← he.2]; omega
                · simp only [Option.some.injEq, Prod.mk.injEq] at h
                  rw [← h.2]; omega

/-- The result of the parser does not depend on the fuel once the fuel exceeds
twice the length of the input. -/
theorem parse_fuel {α : Type} (conv : NumberLit → Option α) :
    ∀ (f1 : Nat),
      (∀ f2 d inp, 2 * inp.length < f1 → 2 * inp.length < f2 →
        parseValue conv f1 d inp = parseValue conv f2 d inp) ∧
      (∀ f2 d inp, 2 * inp.length + 1 < f1 → 2 * inp.length + 1 < f2 →
        parseElements conv f1 d inp = parseElements conv f2 d inp) ∧
      (∀ f2 d inp, 2 * inp.length + 1 < f1 → 2 * inp.length + 1 < f2 →
        parseMembers conv f1 d inp = parseMembers conv f2 d inp)
  | 0 => by
    refine ⟨?_, ?_, ?_⟩ <;> intro f2 d inp h1 h2 <;> omega
  | a + 1 => by
    obtain ⟨ihv, ihe, ihm⟩ := parse_fuel conv a
    refine ⟨?_, ?_, ?_⟩
    · intro f2 d inp h1 h2
      obtain ⟨b, rfl⟩ : ∃ b, f2 = b + 1 := ⟨f2 - 1, by omega⟩
      rw [parseValue, parseValue]
      cases hs : skipSpace inp with
      | nil => rfl
      | cons c r =>
        have l0 := skipSpace_cons_length hs
        simp only
        split_ifs
        · rfl
        · cases hs1 : skipSpace r with
          | nil => rfl
          | cons c1 r1 =>
            have l1 := skipSpace_cons_length hs1
            simp only
            rw [ihm b (d + 1) (c1 :: r1) (by simp only [List.length_cons]; omega)
              (by simp only [List.length_cons]; omega)]
        · rfl
        · cases hs1 : skipSpace r with
          | nil => rfl
          | cons c1 r1 =>
            have l1 := skipSpace_cons_length hs1
            simp only
            rw [ihe b (d + 1) (c1 :: r1) (by simp only [List.length_cons]; omega)
              (by simp only [List.length_cons]; omega)]
        · rw [unquote_fuel a b r (by omega) (by omega)]
        · rfl
        · rfl
        · rfl
        · rfl
        · rfl
    · intro f2 d inp h1 h2
      obtain ⟨b, rfl⟩ : ∃ b, f2 = b + 1 := ⟨f2 - 1, by omega⟩
      rw [parseElements, parseElements, ihv b d inp (by omega) (by omega)]
      cases hv : parseValue conv b d inp with
      | none => rfl
      | some q =>
        obtain ⟨v, r⟩ := q
        have l0 := (parse_length conv b).1 d inp v r hv
        simp only
        cases hs : skipSpace r with
        | nil => rfl
        | cons c r1 =>
          have l1 := skipSpace_cons_length hs
          simp only
          rw [ihe b d r1 (by omega) (by omega)]
    · intro f2 d inp h1 h2
      obtain ⟨b, rfl⟩ : ∃ b, f2 = b + 1 := ⟨f2 - 1, by omega⟩
      rw [parseMembers, parseMembers]
      cases hs : skipSpace inp with
      | nil => rfl
      | cons q r =>
        have l0 := skipSpace_cons_length hs
        simp only
        rw [unquote_fuel a b r (by omega) (by omega)]
        split_ifs
        · cases hu : unquote b r with
          | none => rfl
          | some p0 =>
            obtain ⟨k, r1⟩ := p0
            have l1 := unquote_length _ _ _ _ hu
            simp only
            cases hs1 : skipSpace r1 with
            | nil => rfl
            | cons c r2 =>
              have l2 := skipSpace_cons_length hs1
              simp only
              rw [ihv b d r2 (by omega) (by omega)]
              split_ifs
              · cases hv : parseValue conv b d r2 with
                | none => rfl
                | some pv =>
                  obtain ⟨v, r3⟩ := pv
                  have l3 := (parse_length conv b).1 d r2 v r3 hv
                  simp only
                  cases hs3 : skipSpace r3 with
                  | nil => rfl
                  | cons c1 r4 =>
                    have l4 := skipSpace_cons_length hs3
                    simp only
                    rw [ihm b d r4 (by omega) (by omega)]
              · rfl
        · rfl

/-- The fuel `decodeMap` gives the parser is enough: any larger fuel gives the
same result. -/
theorem parseValue_fuel_enough {α : Type} (conv : NumberLit → Option α) (fuel : Nat)
    (inp : List Char) (h : 2 * inp.length < fuel) :
    parseValue conv fuel 0 inp = parseValue conv (2 * inp.length + 1) 0 inp :=
  (parse_fuel conv fuel).1 _ 0 inp h (by omega)

/-! ### From the grammar to the decoder -/

theorem valuesOf_cons (x : SyntaxTree) (xs : List SyntaxTree) (vs : List Value)
    (h : valuesOf (x :: xs) = some vs) :
    ∃ v vs1, valueOf x = some v ∧ valuesOf xs = some vs1 ∧ vs = v :: vs1 := by
  rw [valuesOf] at h
  cases h1 : valueOf x with
  | none => simp [h1] at h
  | some v =>
    cases h2 : valuesOf xs with
    | none => simp [h1, h2] at h
    | some vs1 =>
      simp only [h1, h2, Option.some.injEq] at h
      exact ⟨v, vs1, rfl, rfl, h.symm⟩

theorem membersOf_cons (k : String) (x : SyntaxTree) (kvs : List (String × SyntaxTree))
    (l : List (String × Value)) (h : membersOf ((k, x) :: kvs) = some l) :
    ∃ v l1, valueOf x = some v ∧ membersOf kvs = some l1 ∧ l = (k, v) :: l1 := by
  rw [membersOf] at h
  cases h1 : valueOf x with
  | none => simp [h1] at h
  | some v =>
    cases h2 : membersOf kvs with
    | none => simp [h1, h2] at h
    | some l1 =>
      simp only [h1, h2, Option.some.injEq] at h
      exact ⟨v, l1, rfl, rfl, h.symm⟩

/-- A text the grammar reads as a tree whose numbers are all inside the float64
range, nested no deeper than the decoder allows, is decoded to the value of that
tree. -/
theorem read_parse :
    ∀ (fuel : Nat),
      (∀ d inp t rest v, readValue fuel inp = some (t, rest) → valueOf t = some v →
        d + JSON.nesting t ≤ maxNestingDepth →
        parseValue convertNumber fuel d inp = some (v, rest)) ∧
      (∀ d inp ts rest vs, readElements fuel inp = some (ts, rest) → valuesOf ts = some vs →
        d + nestingList ts ≤ maxNestingDepth →
        parseElements convertNumber fuel d inp = some (vs, rest)) ∧
      (∀ d inp ms rest l, readMembers fuel inp = some (ms, rest) → membersOf ms = some l →
        d + nestingMembers ms ≤ maxNestingDepth →
        parseMembers convertNumber fuel d inp = some (l, rest))
  | 0 => by
    refine ⟨?_, ?_, ?_⟩ <;> intro d inp t rest v h
    · simp [readValue] at h
    · simp [readElements] at h
    · simp [readMembers] at h
  | f + 1 => by
    obtain ⟨ihv, ihe, ihm⟩ := read_parse f
    refine ⟨?_, ?_, ?_⟩
    · intro d inp t rest v h hv hd
      rw [readValue] at h
      rw [parseValue]
      cases hs : skipSpace inp with
      | nil => simp [hs] at h
      | cons c r =>
        simp only [hs] at h ⊢
        by_cases h1 : c = '\x7b'
        · simp only [if_pos h1] at h ⊢
          cases hs1 : skipSpace r with
          | nil => simp [hs1] at h
          | cons c1 r1 =>
            simp only [hs1] at h ⊢
            by_cases h10 : c1 = '\x7d'
            · simp only [if_pos h10, Option.some.injEq, Prod.mk.injEq] at h
              obtain ⟨ht, hr⟩ := h
              subst ht; subst hr
              simp only [valueOf, membersOf, Option.map_some', Option.some.injEq] at hv
              simp only [JSON.nesting] at hd
              have hd1 : ¬ maxNestingDepth < d + 1 := by omega
              simp only [if_neg hd1, if_pos h10]
              rw [← hv]; rfl
            · simp only [if_neg h10, Option.map_eq_some'] at h
              obtain ⟨p, hp, he⟩ := h
              simp only [Prod.mk.injEq] at he
              obtain ⟨ht, hr⟩ := he
              subst ht; subst hr
              simp only [valueOf, Option.map_eq_some'] at hv
              obtain ⟨l, hl, hv⟩ := hv
              simp only [JSON.nesting] at hd
              have hd1 : ¬ maxNestingDepth < d + 1 := by omega
              have := ihm (d + 1) _ p.1 p.2 l hp hl (by omega)
              simp only [if_neg hd1, if_neg h10, this, Option.map_some']
              rw [← hv]
        · simp only [if_neg h1] at h ⊢
          by_cases h2 : c = '['
          · simp only [if_pos h2] at h ⊢
            cases hs1 : skipSpace r with
            | nil => simp [hs1] at h
            | cons c1 r1 =>
              simp only [hs1] at h ⊢
              by_cases h10 : c1 = ']'
              · simp only [if_pos h10, Option.some.injEq, Prod.mk.injEq] at h
                obtain ⟨ht, hr⟩ := h
                subst ht; subst hr
                simp only [valueOf, valuesOf, Option.map_some', Option.some.injEq] at hv
                simp only [JSON.nesting] at hd
                have hd1 : ¬ maxNestingDepth < d + 1 := by omega
                simp only [if_neg hd1, if_pos h10]
                rw [← hv]
              · simp only [if_neg h10, Option.map_eq_some'] at h
                obtain ⟨p, hp, he⟩ := h
                simp only [Prod.mk.injEq] at he
                obtain ⟨ht, hr⟩ := he
                subst ht; subst hr
                simp only [valueOf, Option.map_eq_some'] at hv
                obtain ⟨l, hl, hv⟩ := hv
                simp only [JSON.nesting] at hd
                have hd1 : ¬ maxNestingDepth < d + 1 := by omega
                have := ihe (d + 1) _ p.1 p.2 l hp hl (by omega)
                simp only [if_neg hd1, if_neg h10, this, Option.map_some']
                rw [← hv]
          · simp only [if_neg h2] at h ⊢
            by_cases h3 : c = '"'
            · simp only [if_pos h3, Option.map_eq_some'] at h ⊢
              obtain ⟨p, hp, he⟩ := h
              simp only [Prod.mk.injEq] at he
              obtain ⟨ht, hr⟩ := he
              subst ht; subst hr
              simp only [valueOf, Option.some.injEq] at hv
              exact ⟨p, hp, by rw [← hv]⟩
            · simp only [if_neg h3] at h ⊢
              by_cases h4 : c = 't'
              · simp only [if_pos h4, Option.map_eq_some'] at h ⊢
                obtain ⟨p, hp, he⟩ := h
                simp only [Prod.mk.injEq] at he
                obtain ⟨ht, hr⟩ := he
                subst ht; subst hr
                simp only [valueOf, Option.some.injEq] at hv
                exact ⟨p, hp, by rw [← hv]⟩
              · simp only [if_neg h4] at h ⊢
                by_cases h5 : c = 'f'
                · simp only [if_pos h5, Option.map_eq_some'] at h ⊢
                  obtain ⟨p, hp, he⟩ := h
                  simp only [Prod.mk.injEq] at he
                  obtain ⟨ht, hr⟩ := he
                  subst ht; subst hr
                  simp only [valueOf, Option.some.injEq] at hv
                  exact ⟨p, hp, by rw [← hv]⟩
                · simp only [if_neg h5] at h ⊢
                  by_cases h6 : c = 'n'
                  · simp only [if_pos h6, Option.map_eq_some'] at h ⊢
                    obtain ⟨p, hp, he⟩ := h
                    simp only [Prod.mk.injEq] at he
                    obtain ⟨ht, hr⟩ := he
                    subst ht; subst hr
                    simp only [valueOf, Option.some.injEq] at hv
                    exact ⟨p, hp, by rw [← hv]⟩
                  · simp only [if_neg h6] at h ⊢
                    by_cases h7 : c = '-' ∨ isDigit c = true
                    · simp only [if_pos h7, Option.map_eq_some'] at h
                      obtain ⟨p, hp, he⟩ := h
                      simp only [Prod.mk.injEq] at he
                      obtain ⟨ht, hr⟩ := he
                      subst ht; subst hr
                      simp only [valueOf, Option.map_eq_some'] at hv
                      obtain ⟨x, hx, hv⟩ := hv
                      simp only [if_pos h7, hp, hx, Option.map_some']
                      rw [← hv]
                    · simp only [if_neg h7] at h
                      exact absurd h (by simp)
    · intro d inp ts rest vs h hv hd
      rw [readElements] at h
      rw [parseElements]
      cases hv0 : readValue f inp with
      | none => simp [hv0] at h
      | some q =>
        obtain ⟨t0, r0⟩ := q
        simp only [hv0] at h
        cases hs : skipSpace r0 with
        | nil => simp [hs] at h
        | cons c r1 =>
          simp only [hs] at h
          by_cases h1 : c = ','
          · simp only [if_pos h1, Option.map_eq_some'] at h
            obtain ⟨p, hp, he⟩ := h
            simp only [Prod.mk.injEq] at he
            obtain ⟨ht, hr⟩ := he
            subst ht; subst hr
            obtain ⟨v0, vs1, e1, e2, e3⟩ := valuesOf_cons _ _ _ hv
            simp only [nestingList] at hd
            have m1 := Nat.le_max_left (JSON.nesting t0) (nestingList p.1)
            have m2 := Nat.le_max_right (JSON.nesting t0) (nestingList p.1)
            have a1 := ihv d inp t0 r0 v0 hv0 e1 (by omega)
            have a2 := ihe d r1 p.1 p.2 vs1 hp e2 (by omega)
            simp only [a1, hs, if_pos h1, a2, Option.map_some']
            rw [e3]
          · simp only [if_neg h1] at h
            by_cases h2 : c = ']'
            · simp only [if_pos h2, Option.some.injEq, Prod.mk.injEq] at h
              obtain ⟨ht, hr⟩ := h
              subst ht; subst hr
              obtain ⟨v0, vs1, e1, e2, e3⟩ := valuesOf_cons _ _ _ hv
              simp only [valuesOf, Option.some.injEq] at e2
              simp only [nestingList] at hd
              have m1 := Nat.le_max_left (JSON.nesting t0) 0
              have a1 := ihv d inp t0 r0 v0 hv0 e1 (by omega)
              simp only [a1, hs, if_neg h1, if_pos h2]
              rw [e3, ← e2]
            · simp only [if_neg h2] at h
              exact absurd h (by simp)
    · intro d inp ms rest l h hv hd
      rw [readMembers] at h
      rw [parseMembers]
      cases hs : skipSpace inp with
      | nil => simp [hs] at h
      | cons q r =>
        simp only [hs] at h ⊢
        by_cases h0 : q = '"'
        · simp only [if_pos h0] at h ⊢
          cases hu : unquote f r with
          | none => simp [hu] at h
          | some p0 =>
            obtain ⟨k, r1⟩ := p0
            simp only [hu] at h ⊢
            cases hs1 : skipSpace r1 with
            | nil => simp [hs1] at h
            | cons c r2 =>
              simp only [hs1] at h ⊢
              by_cases h1 : c = ':'
              · simp only [if_pos h1] at h ⊢
                cases hv0 : readValue f r2 with
                | none => simp [hv0] at h
                | some pv =>
                  obtain ⟨t0, r3⟩ := pv
                  simp only [hv0] at h
                  cases hs3 : skipSpace r3 with
                  | nil => simp [hs3] at h
                  | cons c1 r4 =>
                    simp only [hs3] at h
                    by_cases h2 : c1 = ','
                    · simp only [if_pos h2, Option.map_eq_some'] at h
                      obtain ⟨p, hp, he⟩ := h
                      simp only [Prod.mk.injEq] at he
                      obtain ⟨ht, hr⟩ := he
                      subst ht; subst hr
                      obtain ⟨v0, l1, e1, e2, e3⟩ := membersOf_cons _ _ _ _ hv
                      simp only [nestingMembers] at hd
                      have m1 := Nat.le_max_left (JSON.nesting t0) (nestingMembers p.1)
                      have m2 := Nat.le_max_right (JSON.nesting t0) (nestingMembers p.1)
                      have a1 := ihv d r2 t0 r3 v0 hv0 e1 (by omega)
                      have a2 := ihm d r4 p.1 p.2 l1 hp e2 (by omega)
                      simp only [a1, hs3, if_pos h2, a2, Option.map_some']
                      rw [e3]
                    · simp only [if_neg h2] at h
                      by_cases h3 : c1 = '\x7d'
                      · simp only [if_pos h3, Option.some.injEq, Prod.mk.injEq] at h
                        obtain ⟨ht, hr⟩ := h
                        subst ht; subst hr
                        obtain ⟨v0, l1, e1, e2, e3⟩ := membersOf_cons _ _ _ _ hv
                        simp only [membersOf, Option.some.injEq] at e2
                        simp only [nestingMembers] at hd
                        have m1 := Nat.le_max_left (JSON.nesting t0) 0
                        have a1 := ihv d r2 t0 r3 v0 hv0 e1 (by omega)
                        simp only [a1, hs3, if_neg h2, if_pos h3]
                        rw [e3, ← e2]
                      · simp only [if_neg h3] at h
                        exact absurd h (by simp)
              · simp only [if_neg h1] at h
                exact absurd h (by simp)
        · simp only [if_neg h0] at h
          exact absurd h (by simp)

/-- A text that is a JSON object whose numbers are all inside the float64 range,
nested no deeper than the decoder allows, is accepted by `decodeMap`, which
gives the value of the object. -/
theorem decodeMap_of_readDocument (body : List Char) (ms : List (String × SyntaxTree))
    (data : Value) (hP : readDocument body = some (JSON.obj ms))
    (hd : JSON.nesting (JSON.obj ms) ≤ maxNestingDepth)
    (hv : valueOf (JSON.obj ms) = some data) :
    decodeMap body = some data := by
  simp only [readDocument] at hP
  cases hr : readValue (2 * body.length + 1) body with
  | none => simp [hr] at hP
  | some p =>
    obtain ⟨t, rest⟩ := p
    simp only [hr] at hP
    split_ifs at hP with h1
    simp only [Option.some.injEq] at hP
    subst hP
    have := (read_parse (2 * body.length + 1)).1 0 body _ rest data hr hv (by omega)
    simp only [valueOf, Option.map_eq_some'] at hv
    obtain ⟨l, _, hv⟩ := hv
    simp only [decodeMap, this]
    rw [← hv]

/-- What the decoder accepts, the grammar reads, as a tree that has the decoded
value. -/
theorem parse_read :
    ∀ (fuel : Nat),
      (∀ d inp v rest, parseValue convertNumber fuel d inp = some (v, rest) →
        ∃ t, readValue fuel inp = some (t, rest) ∧ valueOf t = some v) ∧
      (∀ d inp vs rest, parseElements convertNumber fuel d inp = some (vs, rest) →
        ∃ ts, readElements fuel inp = some (ts, rest) ∧ valuesOf ts = some vs) ∧
      (∀ d inp l rest, parseMembers convertNumber fuel d inp = some (l, rest) →
        ∃ ms, readMembers fuel inp = some (ms, rest) ∧ membersOf ms = some l)
  | 0 => by
    refine ⟨?_, ?_, ?_⟩ <;> intro d inp t rest h
    · simp [parseValue] at h
    · simp [parseElements] at h
    · simp [parseMembers] at h
  | f + 1 => by
    obtain ⟨ihv, ihe, ihm⟩ := parse_read f
    refine ⟨?_, ?_, ?_⟩
    · intro d inp v rest h
      rw [parseValue] at h
      rw [readValue]
      cases hs : skipSpace inp with
      | nil => simp [hs] at h
      | cons c r =>
        simp only [hs] at h ⊢
        by_cases h1 : c = '\x7b'
        · simp only [if_pos h1] at h ⊢
          by_cases hd1 : maxNestingDepth < d + 1
          · simp [if_pos hd1] at h
          · simp only [if_neg hd1] at h
            cases hs1 : skipSpace r with
            | nil => simp [hs1] at h
            | cons c1 r1 =>
              simp only [hs1] at h ⊢
              by_cases h10 : c1 = '\x7d'
              · simp only [if_pos h10, Option.some.injEq, Prod.mk.injEq] at h ⊢
                obtain ⟨ht, hr⟩ := h
                subst ht; subst hr
                exact ⟨JSON.obj [], ⟨rfl, rfl⟩, rfl⟩
              · simp only [if_neg h10, Option.map_eq_some'] at h ⊢
                obtain ⟨p, hp, he⟩ := h
                simp only [Prod.mk.injEq] at he
                obtain ⟨ht, hr⟩ := he
                subst ht; subst hr
                obtain ⟨ms, hm1, hm2⟩ := ihm (d + 1) _ p.1 p.2 hp
                refine ⟨JSON.obj ms, ⟨(ms, p.2), hm1, rfl⟩, ?_⟩
                simp only [valueOf, hm2, Option.map_some']
        · simp only [if_neg h1] at h ⊢
          by_cases h2 : c = '['
          · simp only [if_pos h2] at h ⊢
            by_cases hd1 : maxNestingDepth < d + 1
            · simp [if_pos hd1] at h
            · simp only [if_neg hd1] at h
              cases hs1 : skipSpace r with
              | nil => simp [hs1] at h
              | cons c1 r1 =>
                simp only [hs1] at h ⊢
                by_cases h10 : c1 = ']'
                · simp only [if_pos h10, Option.some.injEq, Prod.mk.injEq] at h ⊢
                  obtain ⟨ht, hr⟩ := h
                  subst ht; subst hr
                  exact ⟨JSON.arr [], ⟨rfl, rfl⟩, rfl⟩
                · simp only [if_neg h10, Option.map_eq_some'] at h ⊢
                  obtain ⟨p, hp, he⟩ := h
                  simp only [Prod.mk.injEq] at he
                  obtain ⟨ht, hr⟩ := he
                  subst ht; subst hr
                  obtain ⟨ts, hm1, hm2⟩ := ihe (d + 1) _ p.1 p.2 hp
                  refine ⟨JSON.arr ts, ⟨(ts, p.2), hm1, rfl⟩, ?_⟩
                  simp only [valueOf, hm2, Option.map_some']
          · simp only [if_neg h2] at h ⊢
            by_cases h3 : c = '"'
            · simp only [if_pos h3, Option.map_eq_some'] at h ⊢
              obtain ⟨p, hp, he⟩ := h
              simp only [Prod.mk.injEq] at he
              obtain ⟨ht, hr⟩ := he
              subst ht; subst hr
              exact ⟨_, ⟨p, hp, rfl⟩, rfl⟩
            · simp only [if_neg h3] at h ⊢
              by_cases h4 : c = 't'
              · simp only [if_pos h4, Option.map_eq_some'] at h ⊢
                obtain ⟨p, hp, he⟩ := h
                simp only [Prod.mk.injEq] at he
                obtain ⟨ht, hr⟩ := he
                subst ht; subst hr
                exact ⟨_, ⟨p, hp, rfl⟩, rfl⟩
              · simp only [if_neg h4] at h ⊢
                by_cases h5 : c = 'f'
                · simp only [if_pos h5, Option.map_eq_some'] at h ⊢
                  obtain ⟨p, hp, he⟩ := h
                  simp only [Prod.mk.injEq] at he
                  obtain ⟨ht, hr⟩ := he
                  subst ht; subst hr
                  exact ⟨_, ⟨p, hp, rfl⟩, rfl⟩
                · simp only [if_neg h5] at h ⊢
                  by_cases h6 : c = 'n'
                  · simp only [if_pos h6, Option.map_eq_some'] at h ⊢
                    obtain ⟨p, hp, he⟩ := h
                    simp only [Prod.mk.injEq] at he
                    obtain ⟨ht, hr⟩ := he
                    subst ht; subst hr
                    exact ⟨_, ⟨p, hp, rfl⟩, rfl⟩
                  · simp only [if_neg h6] at h ⊢
                    by_cases h7 : c = '-' ∨ isDigit c = true
                    · simp only [if_pos h7] at h ⊢
                      cases hsc : scanNumber (c :: r) with
                      | none => simp [hsc] at h
                      | some q =>
                        obtain ⟨lit, r1⟩ := q
                        simp only [hsc, Option.map_eq_some'] at h
                        obtain ⟨x, hx, he⟩ := h
                        simp only [Prod.mk.injEq] at he
                        obtain ⟨ht, hr⟩ := he
                        subst ht; subst hr
                        refine ⟨JSON.num lit, rfl, ?_⟩
                        simp only [valueOf, hx, Option.map_some']
                    · simp only [if_neg h7] at h
                      exact absurd h (by simp)
    · intro d inp vs rest h
      rw [parseElements] at h
      rw [readElements]
      cases hv0 : parseValue convertNumber f d inp with
      | none => simp [hv0] at h
      | some q =>
        obtain ⟨v0, r0⟩ := q
        simp only [hv0] at h
        obtain ⟨t0, ht0, hv1⟩ := ihv d inp v0 r0 hv0
        simp only [ht0]
        cases hs : skipSpace r0 with
        | nil => simp [hs] at h
        | cons c r1 =>
          simp only [hs] at h ⊢
          by_cases h1 : c = ','
          · simp only [if_pos h1, Option.map_eq_some'] at h ⊢
            obtain ⟨p, hp, he⟩ := h
            simp only [Prod.mk.injEq] at he
            obtain ⟨ht, hr⟩ := he
            subst ht; subst hr
            obtain ⟨ts, hm1, hm2⟩ := ihe d r1 p.1 p.2 hp
            refine ⟨t0 :: ts, ⟨(ts, p.2), hm1, rfl⟩, ?_⟩
            simp only [valuesOf, hv1, hm2]
          · simp only [if_neg h1] at h ⊢
            by_cases h2 : c = ']'
            · simp only [if_pos h2, Option.some.injEq, Prod.mk.injEq] at h ⊢
              obtain ⟨ht, hr⟩ := h
              subst ht; subst hr
              refine ⟨[t0], ⟨rfl, rfl⟩, ?_⟩
              simp only [valuesOf, hv1]
            · simp only [if_neg h2] at h
              exact absurd h (by simp)
    · intro d inp l rest h
      rw [parseMembers] at h
      rw [readMembers]
      cases hs : skipSpace inp with
      | nil => simp [hs] at h
      | cons q r =>
        simp only [hs] at h ⊢
        by_cases h0 : q = '"'
        · simp only [if_pos h0] at h ⊢
          cases hu : unquote f r with
          | none => simp [hu] at h
          | some p0 =>
            obtain ⟨k, r1⟩ := p0
            simp only [hu] at h ⊢
            cases hs1 : skipSpace r1 with
            | nil => simp [hs1] at h
            | cons c r2 =>
              simp only [hs1] at h ⊢
              by_cases h1 : c = ':'
              · simp only [if_pos h1] at h ⊢
                cases hv0 : parseValue convertNumber f d r2 with
                | none => simp [hv0] at h
                | some pv =>
                  obtain ⟨v0, r3⟩ := pv
                  simp only [hv0] at h
                  obtain ⟨t0, ht0, hv1⟩ := ihv d r2 v0 r3 hv0
                  simp only [ht0]
                  cases hs3 : skipSpace r3 with
                  | nil => simp [hs3] at h
                  | cons c1 r4 =>
                    simp only [hs3] at h ⊢
                    by_cases h2 : c1 = ','
                    · simp only [if_pos h2, Option.map_eq_some'] at h ⊢
                      obtain ⟨p, hp, he⟩ := h
                      simp only [Prod.mk.injEq] at he
                      obtain ⟨ht, hr⟩ := he
                      subst ht; subst hr
                      obtain ⟨ms, hm1, hm2⟩ := ihm d r4 p.1 p.2 hp
                      refine ⟨(String.mk k, t0) :: ms, ⟨(ms, p.2), hm1, rfl⟩, ?_⟩
                      simp only [membersOf, hv1, hm2]
                    · simp only [if_neg h2] at h ⊢
                      by_cases h3 : c1 = '\x7d'
                      · simp only [if_pos h3, Option.some.injEq, Prod.mk.injEq] at h ⊢
                        obtain ⟨ht, hr⟩ := h
                        subst ht; subst hr
                        refine ⟨[(String.mk k, t0)], ⟨rfl, rfl⟩, ?_⟩
                        simp only [membersOf, hv1]
                      · simp only [if_neg h3] at h
                        exact absurd h (by simp)
              · simp only [if_neg h1] at h
                exact absurd h (by simp)
        · simp only [if_neg h0] at h
          exact absurd h (by simp)

/-- The response to an accepted body is itself a JSON text, and its value is the
decoded value. -/
theorem readDocument_encodeLine (fmt : Float64 → String) (data : Value)
    (hc : data.Canonical 0) (hn : data.AllNumbers (FormatsBack fmt)) :
    ∃ t, readDocument (encodeLine fmt data).data = some t ∧ valueOf t = some data := by
  have hp := parseValue_encodeIndent fmt data 0 ['\n']
    (2 * (encodeIndent fmt 0 data ++ ['\n']).length + 1) hc hn
    (by intro c hc; simp at hc; exact Or.inr hc.symm)
    (by simp only [List.length_append, List.length_cons, List.length_nil]; omega)
  obtain ⟨t, ht, hv⟩ := (parse_read _).1 0 _ data ['\n'] hp
  refine ⟨t, ?_, hv⟩
  simp only [readDocument, encodeLine, ht]
  rfl

theorem nested_head : ∀ (n : Nat), ∃ t, nested n = '[' :: t
  | 0 => ⟨_, rfl⟩
  | _ + 1 => ⟨_, rfl⟩

theorem nested_length : ∀ (n : Nat), (nested n).length = 2 * n + 2
  | 0 => rfl
  | n + 1 => by
    simp only [nested, List.length_cons, List.length_append, List.length_nil, nested_length n]
    omega

theorem nesting_nestedTree : ∀ (n : Nat), JSON.nesting (nestedTree n) = n + 1
  | 0 => by simp [nestedTree, JSON.nesting, nestingList]
  | n + 1 => by
    simp [nestedTree, JSON.nesting, nestingList, nesting_nestedTree n]

theorem nesting_deepBody (n : Nat) :
    JSON.nesting (JSON.obj [("a", nestedTree n)]) = n + 2 := by
  simp [JSON.nesting, nestingMembers, nesting_nestedTree n]

theorem readValue_nested : ∀ (n fuel : Nat) (rest : List Char), 2 * n + 1 ≤ fuel →
    readValue fuel (nested n ++ rest) = some (nestedTree n, rest)
  | 0, fuel, rest, h => by
    obtain ⟨f, rfl⟩ : ∃ f, fuel = f + 1 := ⟨fuel - 1, by omega⟩
    rw [readValue]
    simp [nested, nestedTree, skipSpace, isSpace]
  | n + 1, fuel, rest, h => by
    obtain ⟨f, rfl⟩ : ∃ f, fuel = f + 2 := ⟨fuel - 2, by omega⟩
    obtain ⟨t, ht⟩ := nested_head n
    have ih := readValue_nested n f (']' :: rest) (by omega)
    rw [readValue]
    simp only [nested, List.cons_append, List.append_assoc, List.nil_append] at ih ⊢
    rw [skipSpace_cons_of_not_space _ _ (by decide)]
    simp only [show ¬ ('[' = '\x7b') by decide, if_false, if_true]
    rw [ht, List.cons_append, skipSpace_cons_of_not_space _ _ (by decide)]
    simp only [show ¬ ('[' = ']') by decide, if_false]
    rw [readElements, ← List.cons_append, ← ht, ih]
    simp only [skipSpace_cons_of_not_space ']' rest (by decide),
      show ¬ (']' = ',') by decide, if_false, if_true, Option.map_some', nestedTree]

theorem parseValue_nested (conv : NumberLit → Option Float64) : ∀ (n fuel d : Nat)
    (rest : List Char), maxNestingDepth < d + n + 1 →
    parseValue conv fuel d (nested n ++ rest) = none
  | _, 0, _, _, _ => by rw [parseValue]
  | 0, f + 1, d, rest, h => by
    rw [parseValue]
    simp only [nested, List.cons_append, skipSpace_cons_of_not_space '[' _ (by decide),
      show ¬ ('[' = '\x7b') by decide, if_false, if_true]
    rw [if_pos (by omega)]
  | n + 1, f + 1, d, rest, h => by
    obtain ⟨t, ht⟩ := nested_head n
    rw [parseValue]
    simp only [nested, List.cons_append, List.append_assoc, List.nil_append,
      skipSpace_cons_of_not_space '[' _ (by decide),
      show ¬ ('[' = '\x7b') by decide, if_false, if_true]
    by_cases hd : maxNestingDepth < d + 1
    · rw [if_pos hd]
    · rw [if_neg hd, ht, List.cons_append, skipSpace_cons_of_not_space _ _ (by decide)]
      simp only [show ¬ ('[' = ']') by decide, if_false]
      cases f with
      | zero => rw [parseElements]; rfl
      | succ g =>
        rw [parseElements, ← List.cons_append, ← ht,
          parseValue_nested conv n g (d + 1) (']' :: rest) (by omega)]
        rfl

theorem readDocument_deepBody (n : Nat) :
    readDocument (deepBody n).data = some (JSON.obj [("a", nestedTree n)]) := by
  have hl := nested_length n
  obtain ⟨t, ht⟩ := nested_head n
  have hr : ∀ f, 2 * n + 1 ≤ f →
      readValue (f + 4) ('\x7b' :: '"' :: 'a' :: '"' :: ':' :: (nested n ++ ['\x7d'])) =
        some (JSON.obj [("a", nestedTree n)], []) := by
    intro f hf
    have ih := readValue_nested n (f + 2) ['\x7d'] (by omega)
    rw [readValue]
    rw [skipSpace_cons_of_not_space _ _ (by decide)]
    simp only [if_true]
    rw [skipSpace_cons_of_not_space _ _ (by decide)]
    simp only [show ¬ ('"' = '\x7d') by decide, if_false]
    rw [readMembers, skipSpace_cons_of_not_space _ _ (by decide)]
    simp only [if_true]
    rw [unquote, unquote]
    simp only [show ¬ ('a' = '"') by decide, show ¬ ('a' = '\\') by decide,
      show ¬ ('a'.toNat < 32) by decide, if_false, if_true, Option.map_some']
    rw [skipSpace_cons_of_not_space _ _ (by decide)]
    simp only [if_true, ih]
    rw [skipSpace_cons_of_not_space _ _ (by decide)]
    simp only [show ¬ ('\x7d' = ',') by decide, if_false, if_true, Option.map_some']
  obtain ⟨f, hf, hf1⟩ : ∃ f, 2 * (deepBody n).data.length + 1 = f + 4 ∧ 2 * n + 1 ≤ f := by
    refine ⟨2 * (deepBody n).data.length + 1 - 4, ?_, ?_⟩ <;>
      simp only [deepBody, List.length_cons, List.length_append, List.length_nil, hl] <;> omega
  rw [readDocument, hf]
  simp only [deepBody]
  rw [hr f hf1]
  rfl

theorem decodeMap_deepBody (n : Nat) (h : maxNestingDepth < n + 2) :
    decodeMap (deepBody n).data = none := by
  obtain ⟨f, hf⟩ : ∃ f, 2 * (deepBody n).data.length + 1 = f + 4 := by
    refine ⟨2 * (deepBody n).data.length + 1 - 4, ?_⟩
    simp only [deepBody, List.length_cons, List.length_append, List.length_nil]; omega
  have ih := parseValue_nested convertNumber n (f + 2) 1 ['\x7d'] (by omega)
  rw [decodeMap, hf]
  simp only [deepBody]
  rw [parseValue, skipSpace_cons_of_not_space _ _ (by decide)]
  simp only [if_true]
  rw [if_neg (by decide), skipSpace_cons_of_not_space _ _ (by decide)]
  simp only [show ¬ ('"' = '\x7d') by decide, if_false]
  rw [parseMembers, skipSpace_cons_of_not_space _ _ (by decide)]
  simp only [if_true]
  rw [unquote, unquote]
  simp only [show ¬ ('a' = '"') by decide, show ¬ ('a' = '\\') by decide,
    show ¬ ('a'.toNat < 32) by decide, if_false, if_true, Option.map_some']
  rw [skipSpace_cons_of_not_space _ _ (by decide)]
  simp only [if_true, ih]
  rfl

/-! ## The claims -/

theorem marshal_errMsg (fmt : Float64 → String) :
    marshal fmt errMsg =
      "\x7b\"err\":\"Sorry, there seems to be an error with your JSON formatting.\"\x7d" := by
  rfl

theorem healthCheck_get (r : Request) (h : r.method = "GET") :
    serve healthCheck r =
      { w := { handlerHeader := [], wroteHeader := true, status := 200, sentHeader := [], body := "ok" },
        slept := [], bodyRead := false } := by
  simp [serve, healthCheck, h, finishRequest, Exec.writeHeader, Exec.write, Exec.fresh, StatusOK]

theorem httpError_fresh (s : Exec) (msg : String) (code : Nat) (h : s.w.wroteHeader = false) :
    (httpError s msg code).w.status = code ∧
    (httpError s msg code).w.sentHeader.get "Content-Type" = some "text/plain; charset=utf-8" ∧
    (httpError s msg code).w.body = s.w.body ++ (msg ++ "\n") ∧
    (httpError s msg code).w.wroteHeader = true ∧
    (httpError s msg code).slept = s.slept ∧
    (httpError s msg code).bodyRead = s.bodyRead := by
  simp [httpError, Exec.writeHeader, Exec.write, Exec.headerSet, Exec.headerDel, h, Header.set,
    Header.get, Header.del]

theorem finishRequest_wrote (s : Exec) (h : s.w.wroteHeader = true) : finishRequest s = s := by
  simp [finishRequest, Exec.writeHeader, h]

theorem fresh_not_wrote : Exec.fresh.w.wroteHeader = false := rfl

theorem headerSet_wrote (s : Exec) (k v : String) :
    (s.headerSet k v).w.wroteHeader = s.w.wroteHeader := rfl

theorem serve_httpError (s : Exec) (msg : String) (code : Nat) (h : s.w.wroteHeader = false) :
    finishRequest (httpError s msg code) = httpError s msg code :=
  finishRequest_wrote _ (httpError_fresh s msg code h).2.2.2.1

/-- C7: for every request, `healthCheck` answers 200 with body `ok` when the
method is GET and 405 for any other method, and two requests with the same
method get the same response whatever their headers and bodies are. -/
theorem healthCheck_by_method (r : Request) :
    (r.method = "GET" →
      (serve healthCheck r).w.status = 200 ∧ (serve healthCheck r).w.body = "ok") ∧
    (r.method ≠ "GET" → (serve healthCheck r).w.status = 405) ∧
    (∀ r2 : Request, r2.method = r.method → serve healthCheck r2 = serve healthCheck r) := by
  refine ⟨fun h => ?_, fun h => ?_, fun r2 h2 => ?_⟩
  · rw [healthCheck_get r h]; exact ⟨rfl, rfl⟩
  · have := httpError_fresh Exec.fresh "Sorry, Only GET methods are currently supported"
      StatusMethodNotAllowed fresh_not_wrote
    simp only [serve, healthCheck, if_neg h]
    rw [serve_httpError _ _ _ fresh_not_wrote]
    exact this.1
  · simp only [serve, healthCheck, h2]

theorem healthCheck_by_method_witness :
    ((serve healthCheck (getRequest "/health")).w.status = 200 ∧
      (serve healthCheck (getRequest "/health")).w.body = "ok") ∧
    (serve healthCheck (bodyRequest "POST" "/health" [] "ok")).w.status = 405 ∧
    serve healthCheck (bodyRequest "GET" "/health" [("Accept", "text/html")] "x") =
      serve healthCheck (getRequest "/health") :=
  ⟨(healthCheck_by_method (getRequest "/health")).1 rfl,
   (healthCheck_by_method (bodyRequest "POST" "/health" [] "ok")).2.1 (by decide),
   (healthCheck_by_method (getRequest "/health")).2.2 _ rfl⟩

/-- C4 (the code on the failing inputs): on a GET, `standardGETRequest` sleeps
`draw + 500` ms and answers 200, but it sets `X-Compute-Response-Time` on the
header map after `WriteHeader`: the value `<draw + 500>ms` is in the handler's
map only, and the header sent to the client does not contain it. -/
theorem standardGETRequest_header_not_sent (draw : Nat) (r : Request) (h : r.method = "GET") :
    (serve (standardGETRequest draw) r).w.status = 200 ∧
    (serve (standardGETRequest draw) r).slept = [draw + 500] ∧
    (serve (standardGETRequest draw) r).w.handlerHeader.get "X-Compute-Response-Time"
      = some (itoa (draw + 500) ++ "ms") ∧
    (serve (standardGETRequest draw) r).w.sentHeader.get "X-Compute-Response-Time" = none := by
  simp [serve, standardGETRequest, h, finishRequest, Exec.writeHeader, Exec.write, Exec.fresh,
    StatusOK, Exec.sleep, Exec.headerSet, Header.set, Header.get, Header.del]

theorem standardGETRequest_header_not_sent_witness :
    (serve (standardGETRequest 42) (getRequest "/")).w.status = 200 ∧
    (serve (standardGETRequest 42) (getRequest "/")).slept = [542] ∧
    (serve (standardGETRequest 42) (getRequest "/")).w.handlerHeader.get "X-Compute-Response-Time"
      = some "542ms" ∧
    (serve (standardGETRequest 42) (getRequest "/")).w.sentHeader.get "X-Compute-Response-Time"
      = none :=
  standardGETRequest_header_not_sent 42 (getRequest "/") rfl

/-- C10: a request whose method is not the handler's allowed method gets 405
from `standardGETRequest`, `randomJSONPOSTRequest` and `JSONAPIPOSTRequest`,
with the message and a newline as body and `Content-Type: text/plain;
charset=utf-8` (not the JSON or JSON:API type set before), no sleep, and the
request body unread. -/
theorem method_not_allowed (env : Env) (r : Request) :
    (r.method ≠ "GET" →
      (serve (standardGETRequest env.draw) r).w.status = 405 ∧
      (serve (standardGETRequest env.draw) r).w.sentHeader.get "Content-Type"
        = some "text/plain; charset=utf-8" ∧
      (serve (standardGETRequest env.draw) r).w.body
        = "Sorry, Only GET methods are currently supported\n" ∧
      (serve (standardGETRequest env.draw) r).slept = [] ∧
      (serve (standardGETRequest env.draw) r).bodyRead = false) ∧
    (r.method ≠ "POST" →
      ((serve (randomJSONPOSTRequest env.formatFloat) r).w.status = 405 ∧
       (serve (randomJSONPOSTRequest env.formatFloat) r).w.sentHeader.get "Content-Type"
         = some "text/plain; charset=utf-8" ∧
       (serve (randomJSONPOSTRequest env.formatFloat) r).w.sentHeader.get "Content-Type"
         ≠ some "application/json" ∧
       (serve (randomJSONPOSTRequest env.formatFloat) r).w.body
         = "Sorry, Only POST methods are currently supported\n" ∧
       (serve (randomJSONPOSTRequest env.formatFloat) r).slept = [] ∧
       (serve (randomJSONPOSTRequest env.formatFloat) r).bodyRead = false) ∧
      ((serve (JSONAPIPOSTRequest env.render) r).w.status = 405 ∧
       (serve (JSONAPIPOSTRequest env.render) r).w.sentHeader.get "Content-Type"
         = some "text/plain; charset=utf-8" ∧
       (serve (JSONAPIPOSTRequest env.render) r).w.sentHeader.get "Content-Type"
         ≠ some jsh.ContentType ∧
       (serve (JSONAPIPOSTRequest env.render) r).w.body
         = "Sorry, Only POST methods are currently supported\n" ∧
       (serve (JSONAPIPOSTRequest env.render) r).slept = [] ∧
       (serve (JSONAPIPOSTRequest env.render) r).bodyRead = false)) := by
  refine ⟨fun h => ?_, fun h => ⟨?_, ?_⟩⟩
  · have := httpError_fresh Exec.fresh "Sorry, Only GET methods are currently supported"
      StatusMethodNotAllowed fresh_not_wrote
    simp only [serve, standardGETRequest, if_neg h]
    rw [serve_httpError _ _ _ fresh_not_wrote]
    exact ⟨this.1, this.2.1, this.2.2.1, this.2.2.2.2.1, this.2.2.2.2.2⟩
  · have := httpError_fresh (Exec.fresh.headerSet "Content-Type" "application/json")
      "Sorry, Only POST methods are currently supported" StatusMethodNotAllowed rfl
    simp only [serve, randomJSONPOSTRequest, if_neg h]
    rw [serve_httpError _ _ _ rfl]
    refine ⟨this.1, this.2.1, ?_, this.2.2.1, this.2.2.2.2.1, this.2.2.2.2.2⟩
    rw [this.2.1]; decide
  · have := httpError_fresh (Exec.fresh.headerSet "Content-Type" jsh.ContentType)
      "Sorry, Only POST methods are currently supported" StatusMethodNotAllowed rfl
    simp only [serve, JSONAPIPOSTRequest, if_neg h]
    rw [serve_httpError _ _ _ rfl]
    refine ⟨this.1, this.2.1, ?_, this.2.2.1, this.2.2.2.2.1, this.2.2.2.2.2⟩
    rw [this.2.1]; decide

theorem method_not_allowed_witness :
    (serve (standardGETRequest 42) (bodyRequest "POST" "/" [] "x")).w.status = 405 ∧
    (serve (randomJSONPOSTRequest formatInteger) (getRequest "/json")).w.status = 405 ∧
    (serve (randomJSONPOSTRequest formatInteger) (getRequest "/json")).w.sentHeader.get
      "Content-Type" = some "text/plain; charset=utf-8" ∧
    (serve (JSONAPIPOSTRequest (fun _ => "")) (getRequest "/jsonapi")).w.status = 405 ∧
    (serve (JSONAPIPOSTRequest (fun _ => "")) (getRequest "/jsonapi")).bodyRead = false :=
  ⟨((method_not_allowed exampleEnv (bodyRequest "POST" "/" [] "x")).1 (by decide)).1,
   ((method_not_allowed exampleEnv (getRequest "/json")).2 (by decide)).1.1,
   ((method_not_allowed exampleEnv (getRequest "/json")).2 (by decide)).1.2.1,
   ((method_not_allowed exampleEnv (getRequest "/jsonapi")).2 (by decide)).2.1,
   ((method_not_allowed exampleEnv (getRequest "/jsonapi")).2 (by decide)).2.2.2.2.2.2⟩

theorem randomJSONPOSTRequest_error (fmt : Float64 → String) (r : Request)
    (hm : r.method = "POST") (hd : decodeMap r.body.data = none) :
    serve (randomJSONPOSTRequest fmt) r =
      { w := { handlerHeader := [("X-Content-Type-Options", "nosniff"),
                                 ("Content-Type", "text/plain; charset=utf-8")],
               wroteHeader := true, status := 400,
               sentHeader := [("X-Content-Type-Options", "nosniff"),
                              ("Content-Type", "text/plain; charset=utf-8")],
               body := "\x7b\"err\":\"Sorry, there seems to be an error with your JSON formatting.\"\x7d\n" },
        slept := [], bodyRead := true } := by
  simp only [serve, randomJSONPOSTRequest, if_pos hm, hd, marshal_errMsg]
  rfl

/-- C2: a POST whose body fails to decode gets status 400, and the response
body with one trailing newline removed is exactly the JSON error message. -/
theorem randomJSONPOSTRequest_invalid_body (fmt : Float64 → String) (r : Request)
    (hm : r.method = "POST") (hd : decodeMap r.body.data = none) :
    (serve (randomJSONPOSTRequest fmt) r).w.status = 400 ∧
    trimSuffix (serve (randomJSONPOSTRequest fmt) r).w.body "\n" =
      "\x7b\"err\":\"Sorry, there seems to be an error with your JSON formatting.\"\x7d" := by
  rw [randomJSONPOSTRequest_error fmt r hm hd]
  exact ⟨rfl, by decide⟩

theorem randomJSONPOSTRequest_invalid_body_witness :
    (serve (randomJSONPOSTRequest formatInteger)
      (bodyRequest "POST" "/json" [] "\x7b\"some\":\"msg\x7d")).w.status = 400 ∧
    trimSuffix (serve (randomJSONPOSTRequest formatInteger)
      (bodyRequest "POST" "/json" [] "\x7b\"some\":\"msg\x7d")).w.body "\n" =
      "\x7b\"err\":\"Sorry, there seems to be an error with your JSON formatting.\"\x7d" :=
  randomJSONPOSTRequest_invalid_body formatInteger
    (bodyRequest "POST" "/json" [] "\x7b\"some\":\"msg\x7d") rfl rfl

/-- C3 (the code on the failing inputs): on a POST whose body fails to decode,
`http.Error` replaces the `application/json` content type set just before it,
and the 400 response is sent with `Content-Type: text/plain; charset=utf-8`. -/
theorem randomJSONPOSTRequest_error_content_type (fmt : Float64 → String) (r : Request)
    (hm : r.method = "POST") (hd : decodeMap r.body.data = none) :
    (serve (randomJSONPOSTRequest fmt) r).w.status = 400 ∧
    (serve (randomJSONPOSTRequest fmt) r).w.sentHeader.get "Content-Type"
      = some "text/plain; charset=utf-8" ∧
    (serve (randomJSONPOSTRequest fmt) r).w.sentHeader.get "Content-Type"
      ≠ some "application/json" := by
  rw [randomJSONPOSTRequest_error fmt r hm hd]
  exact ⟨rfl, by decide, by decide⟩

theorem randomJSONPOSTRequest_error_content_type_witness :
    (serve (randomJSONPOSTRequest formatInteger)
      (bodyRequest "POST" "/json" [] "\x7b\"some\":\"msg\x7d")).w.status = 400 ∧
    (serve (randomJSONPOSTRequest formatInteger)
      (bodyRequest "POST" "/json" [] "\x7b\"some\":\"msg\x7d")).w.sentHeader.get "Content-Type"
      = some "text/plain; charset=utf-8" ∧
    (serve (randomJSONPOSTRequest formatInteger)
      (bodyRequest "POST" "/json" [] "\x7b\"some\":\"msg\x7d")).w.sentHeader.get "Content-Type"
      ≠ some "application/json" :=
  randomJSONPOSTRequest_error_content_type formatInteger
    (bodyRequest "POST" "/json" [] "\x7b\"some\":\"msg\x7d") rfl rfl

/-! ### The dispatcher -/

theorem main_m : main.m =
    [("/health", (rateLimiter, Route.healthCheck)), ("/", (rateLimiter, Route.standardGETRequest)),
     ("/json", (rateLimiter, Route.randomJSONPOSTRequest)),
     ("/jsonapi", (rateLimiter, Route.JSONAPIPOSTRequest))] := rfl

theorem main_es : main.es = [("/", (rateLimiter, Route.standardGETRequest))] := rfl

theorem mux_handler_cases (path : String) :
    (path = "/health" → main.handler path = some (rateLimiter, Route.healthCheck)) ∧
    (path = "/json" → main.handler path = some (rateLimiter, Route.randomJSONPOSTRequest)) ∧
    (path = "/jsonapi" → main.handler path = some (rateLimiter, Route.JSONAPIPOSTRequest)) ∧
    (path ≠ "/health" → path ≠ "/json" → path ≠ "/jsonapi" → path.data.head? = some '/' →
      main.handler path = some (rateLimiter, Route.standardGETRequest)) ∧
    (path.data.head? ≠ some '/' → main.handler path = none) := by
  have key : path ≠ "/health" → path ≠ "/json" → path ≠ "/jsonapi" →
      path.data.head? = some '/' →
      main.handler path = some (rateLimiter, Route.standardGETRequest) := by
    intro h1 h2 h3 h4
    have e1 : ("/health" == path) = false := by
      rw [beq_eq_false_iff_ne]; exact Ne.symm h1
    have e2 : ("/json" == path) = false := by
      rw [beq_eq_false_iff_ne]; exact Ne.symm h2
    have e3 : ("/jsonapi" == path) = false := by
      rw [beq_eq_false_iff_ne]; exact Ne.symm h3
    simp only [ServeMux.handler, ServeMux.matchPath, main_m, main_es, List.find?, e1, e2, e3]
    by_cases h0 : ("/" == path) = true
    · simp [h0]
    · rcases path with ⟨cs⟩
      cases cs with
      | nil => simp at h4
      | cons c cs =>
        simp only [List.head?_cons, Option.some.injEq] at h4
        subst h4
        simp [h0]
  refine ⟨fun h => by subst h; rfl, fun h => by subst h; rfl, fun h => by subst h; rfl, key,
    fun h4 => ?_⟩
  have e1 : ("/health" == path) = false := by
    rw [beq_eq_false_iff_ne]; intro e; subst e; exact h4 rfl
  have e2 : ("/json" == path) = false := by
    rw [beq_eq_false_iff_ne]; intro e; subst e; exact h4 rfl
  have e3 : ("/jsonapi" == path) = false := by
    rw [beq_eq_false_iff_ne]; intro e; subst e; exact h4 rfl
  have e0 : ("/" == path) = false := by
    rw [beq_eq_false_iff_ne]; intro e; subst e; exact h4 rfl
  simp only [ServeMux.handler, ServeMux.matchPath, main_m, main_es, List.find?, e0, e1, e2, e3]
  rcases path with ⟨cs⟩
  cases cs with
  | nil => rfl
  | cons c cs =>
    have hc : c ≠ '/' := by
      intro e; subst e; exact h4 rfl
    have hb : ('/' == c) = false := by
      rw [beq_eq_false_iff_ne]; exact Ne.symm hc
    simp [List.isPrefixOf, hb]

theorem pathClean_head (p : List Char) : ∃ t, pathClean p = '/' :: t := by
  unfold pathClean
  cases cleanElements [] (splitSlash p) with
  | nil => exact ⟨[], rfl⟩
  | cons seg segs => exact ⟨_, rfl⟩

theorem cleanPath_head (path : String) : (cleanPath path).data.head? = some '/' := by
  unfold cleanPath
  by_cases h1 : path.data = []
  · rw [if_pos h1]; rfl
  · rw [if_neg h1]
    obtain ⟨t, ht⟩ := pathClean_head (if path.data.head? = some '/' then path.data
      else '/' :: path.data)
    simp only [ht]
    split_ifs <;> rfl

theorem shouldRedirect_main (path : String) : main.shouldRedirect path = false := by
  unfold ServeMux.shouldRedirect
  split_ifs with h1 h2 h3
  · rfl
  · rfl
  · exfalso
    rw [main_m] at h3
    have hl : (path ++ "/").data.getLast? = some '/' := by
      rw [String.data_append]; exact List.getLast?_concat _
    have hd : (path ++ "/").data = path.data ++ ['/'] := by
      rw [String.data_append]
    simp only [List.any_cons, List.any_nil, Bool.or_false, Bool.or_eq_true, beq_iff_eq] at h3
    rcases h3 with h | h | h | h
    · rw [← h] at hl; exact absurd hl (by decide)
    · rw [← h] at hd
      have : (path.data ++ ['/']).length = 1 := by rw [← hd]; rfl
      simp only [List.length_append, List.length_cons, List.length_nil] at this
      exact h2 (List.length_eq_zero.1 (by omega))
    · rw [← h] at hl; exact absurd hl (by decide)
    · rw [← h] at hl; exact absurd hl (by decide)
  · rfl

/-- C5 (counterexample): the path `/foo` is none of the four patterns, yet the
mux hands the request to `standardGETRequest` behind the limiter, and the
response is 200, not the not-found response. -/
theorem main_serves_other_paths :
    "/foo" ∉ ["/health", "/", "/json", "/jsonapi"] ∧
    main.ServeHTTP "/foo" (getRequest "/foo") =
      some (Dispatch.registered (rateLimiter, Route.standardGETRequest)) ∧
    (serve (limited exampleEnv (rateLimiter, Route.standardGETRequest))
      (getRequest "/foo")).w.status = 200 ∧
    (serve (limited exampleEnv (rateLimiter, Route.standardGETRequest))
      (getRequest "/foo")).slept = [542] := by
  decide

/-- C5 (amended): a request whose target is `*` is answered 400 by the mux
itself; every other request goes to the handler `ServeMux.Handler` gives.
`/health`, `/json` and `/jsonapi` are served by their own handlers; the pattern
`/` matches every path, so every other path in canonical form is served by
`standardGETRequest` behind the rate limiter.  A request other than CONNECT
whose path is not in canonical form gets the mux's redirect to the cleaned
path and no registered handler, and never the not-found handler.  The path of
a CONNECT request is matched as it is; it gets the not-found handler when it
does not start with `/`. -/
theorem main_ServeHTTP_routes (requestURI : String) (r : Request) :
    (requestURI = "*" → main.ServeHTTP requestURI r = none) ∧
    (requestURI ≠ "*" → main.ServeHTTP requestURI r = some (main.Handler r)) ∧
    (r.path = "/health" → main.Handler r = Dispatch.registered (rateLimiter, Route.healthCheck)) ∧
    (r.path = "/json" →
      main.Handler r = Dispatch.registered (rateLimiter, Route.randomJSONPOSTRequest)) ∧
    (r.path = "/jsonapi" →
      main.Handler r = Dispatch.registered (rateLimiter, Route.JSONAPIPOSTRequest)) ∧
    (r.path ≠ "/health" → r.path ≠ "/json" → r.path ≠ "/jsonapi" → cleanPath r.path = r.path →
      main.Handler r = Dispatch.registered (rateLimiter, Route.standardGETRequest)) ∧
    (r.method ≠ "CONNECT" → cleanPath r.path ≠ r.path →
      main.Handler r = Dispatch.redirect (cleanPath r.path)) ∧
    (r.method ≠ "CONNECT" → main.Handler r ≠ Dispatch.notFound) ∧
    (r.method = "CONNECT" → main.Handler r = Dispatch.ofHandler (main.handler r.path)) ∧
    (r.method = "CONNECT" → r.path.data.head? ≠ some '/' →
      main.Handler r = Dispatch.notFound) := by
  have hc : r.method = "CONNECT" → main.Handler r = Dispatch.ofHandler (main.handler r.path) := by
    intro h
    simp only [ServeMux.Handler, if_pos h, shouldRedirect_main, Bool.false_eq_true, if_false]
  have hclean : cleanPath r.path = r.path →
      main.Handler r = Dispatch.ofHandler (main.handler r.path) := by
    intro h
    by_cases hm : r.method = "CONNECT"
    · exact hc hm
    · simp only [ServeMux.Handler, if_neg hm, shouldRedirect_main, Bool.false_eq_true, if_false,
        h, ne_eq, not_true_eq_false]
  have hred : r.method ≠ "CONNECT" → cleanPath r.path ≠ r.path →
      main.Handler r = Dispatch.redirect (cleanPath r.path) := by
    intro hm h
    simp only [ServeMux.Handler, if_neg hm, shouldRedirect_main, Bool.false_eq_true, if_false,
      ne_eq, h, not_false_eq_true, if_true]
  have hcases := mux_handler_cases r.path
  refine ⟨fun h => if_pos h, fun h => if_neg h,
    fun h => ?_, fun h => ?_, fun h => ?_, fun h1 h2 h3 h4 => ?_, hred, fun hm => ?_, hc,
    fun hm h => ?_⟩
  · rw [hclean (by rw [h]; decide), hcases.1 h]; rfl
  · rw [hclean (by rw [h]; decide), hcases.2.1 h]; rfl
  · rw [hclean (by rw [h]; decide), hcases.2.2.1 h]; rfl
  · have hh : r.path.data.head? = some '/' := by rw [← h4]; exact cleanPath_head _
    rw [hclean h4, hcases.2.2.2.1 h1 h2 h3 hh]; rfl
  · by_cases h : cleanPath r.path = r.path
    · have hh : r.path.data.head? = some '/' := by rw [← h]; exact cleanPath_head _
      rw [hclean h]
      by_cases h1 : r.path = "/health"
      · rw [hcases.1 h1]; simp [Dispatch.ofHandler]
      by_cases h2 : r.path = "/json"
      · rw [hcases.2.1 h2]; simp [Dispatch.ofHandler]
      by_cases h3 : r.path = "/jsonapi"
      · rw [hcases.2.2.1 h3]; simp [Dispatch.ofHandler]
      rw [hcases.2.2.2.1 h1 h2 h3 hh]; simp [Dispatch.ofHandler]
    · rw [hred hm h]; simp
  · rw [hc hm, hcases.2.2.2.2 h]; rfl

theorem main_ServeHTTP_routes_witness :
    main.ServeHTTP "*" (bodyRequest "OPTIONS" "*" [] "") = none ∧
    main.ServeHTTP "/health" (getRequest "/health") = some (main.Handler (getRequest "/health")) ∧
    main.Handler (getRequest "/health") = Dispatch.registered (rateLimiter, Route.healthCheck) ∧
    main.Handler (getRequest "/json/extra") =
      Dispatch.registered (rateLimiter, Route.standardGETRequest) ∧
    main.Handler (getRequest "//foo") = Dispatch.redirect "/foo" ∧
    main.Handler (getRequest "/a/../health") = Dispatch.redirect "/health" ∧
    main.Handler (getRequest "//foo") ≠ Dispatch.notFound ∧
    main.Handler (bodyRequest "CONNECT" "" [] "") = Dispatch.notFound :=
  ⟨(main_ServeHTTP_routes "*" (bodyRequest "OPTIONS" "*" [] "")).1 rfl,
   (main_ServeHTTP_routes "/health" (getRequest "/health")).2.1 (by decide),
   (main_ServeHTTP_routes "/health" (getRequest "/health")).2.2.1 rfl,
   (main_ServeHTTP_routes "/json/extra" (getRequest "/json/extra")).2.2.2.2.2.1 (by decide)
     (by decide) (by decide) (by decide),
   (main_ServeHTTP_routes "//foo" (getRequest "//foo")).2.2.2.2.2.2.1 (by decide) (by decide),
   (main_ServeHTTP_routes "/a/../health" (getRequest "/a/../health")).2.2.2.2.2.2.1 (by decide)
     (by decide),
   (main_ServeHTTP_routes "//foo" (getRequest "//foo")).2.2.2.2.2.2.2.1 (by decide),
   (main_ServeHTTP_routes "" (bodyRequest "CONNECT" "" [] "")).2.2.2.2.2.2.2.2.2 rfl (by decide)⟩

/-- C8: each of the four registered routes is wrapped with the one limiter
`rateLimiter` (quota 10); when the limiter rejects a request the response is
429 and nothing of the route's handler has happened (no write, no header, no
sleep, the body unread); when it admits the request the result is exactly the
handler's. -/
theorem rate_limiter_gate (env : Env) (e : tollbooth.Limiter × Route)
    (he : e ∈ main.m.map Prod.snd) (r : Request) :
    main.m.map Prod.fst = ["/health", "/", "/json", "/jsonapi"] ∧
    e.1 = rateLimiter ∧ rateLimiter.max = 10 ∧
    (env.admits rateLimiter r = false →
      (finishRequest (limited env e r Exec.fresh)).w.status = 429 ∧
      (finishRequest (limited env e r Exec.fresh)).w.body = "" ∧
      (finishRequest (limited env e r Exec.fresh)).w.sentHeader = [] ∧
      (finishRequest (limited env e r Exec.fresh)).slept = [] ∧
      (finishRequest (limited env e r Exec.fresh)).bodyRead = false) ∧
    (env.admits rateLimiter r = true →
      limited env e r Exec.fresh = e.2.handler env r Exec.fresh) := by
  have h1 : e.1 = rateLimiter := by
    rw [main_m] at he
    simp only [List.map, List.mem_cons, List.mem_nil_iff, or_false] at he
    rcases he with h | h | h | h <;> rw [h]
  refine ⟨rfl, h1, rfl, fun ha => ?_, fun ha => ?_⟩
  · simp only [limited, tollbooth.LimitFuncHandler, h1, ha]
    exact ⟨rfl, rfl, rfl, rfl, rfl⟩
  · simp only [limited, tollbooth.LimitFuncHandler, h1, ha, if_true]

theorem rate_limiter_gate_witness :
    (finishRequest (limited { exampleEnv with admits := fun _ _ => false }
      (rateLimiter, Route.standardGETRequest) (getRequest "/") Exec.fresh)).w.status = 429 ∧
    limited exampleEnv (rateLimiter, Route.standardGETRequest) (getRequest "/") Exec.fresh =
      standardGETRequest 42 (getRequest "/") Exec.fresh :=
  ⟨((rate_limiter_gate { exampleEnv with admits := fun _ _ => false }
      (rateLimiter, Route.standardGETRequest) (by decide) (getRequest "/")).2.2.2.1 rfl).1,
   (rate_limiter_gate exampleEnv (rateLimiter, Route.standardGETRequest) (by decide)
      (getRequest "/")).2.2.2.2 rfl⟩

/-- C9: on a POST, `JSONAPIPOSTRequest` answers with the status of the codec's
parse outcome: 406 when the content type is missing or not the JSON:API type;
500 when the content type is right and the body is not well-formed JSON; 201
when the content type is right and the `data` resource declares a non-empty
type; 406 when the resource declares no type or an empty one. -/
theorem JSONAPIPOSTRequest_status (render : Except jsh.Error jsh.Object → String) (r : Request)
    (hm : r.method = "POST") :
    (r.header.get "Content-Type" ≠ some jsh.ContentType →
      (serve (JSONAPIPOSTRequest render) r).w.status = 406) ∧
    (r.header.get "Content-Type" = some jsh.ContentType → parseDocument r.body.data = none →
      (serve (JSONAPIPOSTRequest render) r).w.status = 500) ∧
    (∀ doc resource t, r.header.get "Content-Type" = some jsh.ContentType →
      parseDocument r.body.data = some doc → jsh.member "data" doc = some resource →
      jsh.member "type" resource = some (JSON.str t) → t ≠ "" →
      (serve (JSONAPIPOSTRequest render) r).w.status = 201) ∧
    (∀ doc resource, r.header.get "Content-Type" = some jsh.ContentType →
      parseDocument r.body.data = some doc → jsh.member "data" doc = some resource →
      (jsh.member "type" resource = none ∨ jsh.member "type" resource = some (JSON.str "")) →
      (serve (JSONAPIPOSTRequest render) r).w.status = 406) := by
  refine ⟨fun hc => ?_, fun hc hd => ?_, fun doc resource t hc hd h1 h2 h3 => ?_,
    fun doc resource hc hd h1 h2 => ?_⟩
  · simp only [serve, JSONAPIPOSTRequest, if_pos hm, jsh.ParseObject, if_neg hc]
    rfl
  · simp only [serve, JSONAPIPOSTRequest, if_pos hm, jsh.ParseObject, if_pos hc, hd]
    rfl
  · simp only [serve, JSONAPIPOSTRequest, if_pos hm, jsh.ParseObject, if_pos hc, hd, h1, h2,
      if_neg h3]
    rfl
  · rcases h2 with h2 | h2
    · simp only [serve, JSONAPIPOSTRequest, if_pos hm, jsh.ParseObject, if_pos hc, hd, h1, h2]
      rfl
    · simp only [serve, JSONAPIPOSTRequest, if_pos hm, jsh.ParseObject, if_pos hc, hd, h1, h2,
        if_true]
      rfl

theorem JSONAPIPOSTRequest_status_witness :
    (serve (JSONAPIPOSTRequest (fun _ => ""))
      (bodyRequest "POST" "/jsonapi" []
        "\x7b\"data\": \x7b\"type\": \"articles\",\"id\": \"1\"\x7d\x7d")).w.status = 406 ∧
    (serve (JSONAPIPOSTRequest (fun _ => ""))
      (bodyRequest "POST" "/jsonapi" [("Content-Type", jsh.ContentType)]
        "\x7b\"data\": \x7b\"type\": \"articles\",\"id\": \"1\"\x7d")).w.status = 500 ∧
    (serve (JSONAPIPOSTRequest (fun _ => ""))
      (bodyRequest "POST" "/jsonapi" [("Content-Type", jsh.ContentType)]
        "\x7b\"data\": \x7b\"type\": \"articles\",\"id\": \"1\"\x7d\x7d")).w.status = 201 ∧
    (serve (JSONAPIPOSTRequest (fun _ => ""))
      (bodyRequest "POST" "/jsonapi" [("Content-Type", jsh.ContentType)]
        "\x7b\"data\": \x7b \x7d\x7d")).w.status = 406 :=
  ⟨(JSONAPIPOSTRequest_status _ (bodyRequest "POST" "/jsonapi" []
      "\x7b\"data\": \x7b\"type\": \"articles\",\"id\": \"1\"\x7d\x7d") rfl).1 (by decide),
   (JSONAPIPOSTRequest_status _ (bodyRequest "POST" "/jsonapi" [("Content-Type", jsh.ContentType)]
      "\x7b\"data\": \x7b\"type\": \"articles\",\"id\": \"1\"\x7d") rfl).2.1 rfl rfl,
   (JSONAPIPOSTRequest_status _ (bodyRequest "POST" "/jsonapi" [("Content-Type", jsh.ContentType)]
      "\x7b\"data\": \x7b\"type\": \"articles\",\"id\": \"1\"\x7d\x7d") rfl).2.2.1
      (JSON.obj [("data", JSON.obj [("id", JSON.str "1"), ("type", JSON.str "articles")])])
      (JSON.obj [("id", JSON.str "1"), ("type", JSON.str "articles")]) "articles"
      rfl rfl rfl rfl (by decide),
   (JSONAPIPOSTRequest_status _ (bodyRequest "POST" "/jsonapi" [("Content-Type", jsh.ContentType)]
      "\x7b\"data\": \x7b \x7d\x7d") rfl).2.2.2
      (JSON.obj [("data", JSON.obj [])]) (JSON.obj []) rfl rfl rfl (Or.inl rfl)⟩

theorem randomJSONPOSTRequest_created (fmt : Float64 → String) (r : Request) (data : Value)
    (hm : r.method = "POST") (hd : decodeMap r.body.data = some data) :
    serve (randomJSONPOSTRequest fmt) r =
      { w := { handlerHeader := [("Content-Type", "application/json")],
               wroteHeader := true, status := 201,
               sentHeader := [("Content-Type", "application/json")],
               body := encodeLine fmt data },
        slept := [], bodyRead := true } := by
  simp only [serve, randomJSONPOSTRequest, if_pos hm, hd]
  rfl

/-- C1 (counterexample): two well-formed JSON objects that are answered 400.
The number of the first is beyond the float64 range, so the decoder reports an
error; the value of the second is nested 10001 deep, one level more than the
decoder allows. -/
theorem valid_object_rejected :
    isJSONObject "\x7b\"a\":1e400\x7d".data = true ∧
    readDocument "\x7b\"a\":1e400\x7d".data =
      some (JSON.obj [("a", JSON.num ⟨false, ['1'], [], false, ['4', '0', '0']⟩)]) ∧
    (serve (randomJSONPOSTRequest formatInteger)
      (bodyRequest "POST" "/json" [] "\x7b\"a\":1e400\x7d")).w.status = 400 ∧
    readDocument (deepBody 9999).data = some (JSON.obj [("a", nestedTree 9999)]) ∧
    JSON.nesting (JSON.obj [("a", nestedTree 9999)]) = 10001 ∧
    (serve (randomJSONPOSTRequest formatInteger)
      (bodyRequest "POST" "/json" [] (deepBody 9999))).w.status = 400 := by
  refine ⟨by decide!, rfl, by decide!, readDocument_deepBody 9999, nesting_deepBody 9999, ?_⟩
  rw [randomJSONPOSTRequest_error formatInteger
    (bodyRequest "POST" "/json" [] (deepBody 9999)) rfl
    (decodeMap_deepBody 9999 (by simp only [maxNestingDepth]; omega))]

/-- C1 (amended): a POST whose body is a JSON object, one JSON value between
optional white space, nested at most 10000 deep and with every number inside
the float64 range, gets status 201; the decoder applied to the response body
gives the Go value of that object (every number as float64, of a repeated key
the last member), and the response body is itself a JSON text with that
value.  The encoder's float formatting is a parameter, taken to write every
number of the value as a literal that parses back to it. -/
theorem randomJSONPOSTRequest_echo (fmt : Float64 → String) (r : Request)
    (ms : List (String × SyntaxTree)) (data : Value)
    (hm : r.method = "POST")
    (hP : readDocument r.body.data = some (JSON.obj ms))
    (hd : JSON.nesting (JSON.obj ms) ≤ maxNestingDepth)
    (hv : valueOf (JSON.obj ms) = some data)
    (hn : data.AllNumbers (FormatsBack fmt)) :
    (serve (randomJSONPOSTRequest fmt) r).w.status = 201 ∧
    decodeMap (serve (randomJSONPOSTRequest fmt) r).w.body.data = some data ∧
    ∃ t, readDocument (serve (randomJSONPOSTRequest fmt) r).w.body.data = some t ∧
      valueOf t = some data := by
  have ha := decodeMap_of_readDocument r.body.data ms data hP hd hv
  rw [randomJSONPOSTRequest_created fmt r data hm ha]
  obtain ⟨_, _, hk⟩ := decodeMap_cases _ _ ha
  have hc := decodeMap_canonical _ _ ha
  exact ⟨rfl, decodeMap_encodeLine fmt data hk hc hn, readDocument_encodeLine fmt data hc hn⟩

theorem randomJSONPOSTRequest_echo_witness :
    (serve (randomJSONPOSTRequest formatInteger)
      (bodyRequest "POST" "/json" []
        "\x7b\"some\":\"data\", \"n\":[1, true, null, \x7b\x7d, \"<\\n>\"], \"some\":\"more\"\x7d")).w.status = 201 ∧
    decodeMap (serve (randomJSONPOSTRequest formatInteger)
      (bodyRequest "POST" "/json" []
        "\x7b\"some\":\"data\", \"n\":[1, true, null, \x7b\x7d, \"<\\n>\"], \"some\":\"more\"\x7d")).w.body.data =
      some (JSON.obj [("n", JSON.arr [JSON.num ⟨false, 2 ^ 52, -52⟩, JSON.bool true, JSON.null,
        JSON.obj [], JSON.str "<\n>"]), ("some", JSON.str "more")]) ∧
    ∃ t, readDocument (serve (randomJSONPOSTRequest formatInteger)
      (bodyRequest "POST" "/json" []
        "\x7b\"some\":\"data\", \"n\":[1, true, null, \x7b\x7d, \"<\\n>\"], \"some\":\"more\"\x7d")).w.body.data =
        some t ∧
      valueOf t = some (JSON.obj [("n", JSON.arr [JSON.num ⟨false, 2 ^ 52, -52⟩, JSON.bool true,
        JSON.null, JSON.obj [], JSON.str "<\n>"]), ("some", JSON.str "more")]) :=
  randomJSONPOSTRequest_echo formatInteger
    (bodyRequest "POST" "/json" []
      "\x7b\"some\":\"data\", \"n\":[1, true, null, \x7b\x7d, \"<\\n>\"], \"some\":\"more\"\x7d")
    [("some", JSON.str "data"),
     ("n", JSON.arr [JSON.num ⟨false, ['1'], [], false, []⟩, JSON.bool true, JSON.null,
        JSON.obj [], JSON.str "<\n>"]),
     ("some", JSON.str "more")]
    (JSON.obj [("n", JSON.arr [JSON.num ⟨false, 2 ^ 52, -52⟩, JSON.bool true, JSON.null,
        JSON.obj [], JSON.str "<\n>"]), ("some", JSON.str "more")])
    rfl rfl
    (by simp only [JSON.nesting, nestingMembers, nestingList]; decide)
    rfl
    (by
      simp only [JSON.AllNumbers, allNumbersMembers, allNumbersList, and_true, true_and,
        FormatsBack]
      decide!)

/-- C6 (counterexample): the bodies `null` and an object followed by other
bytes are not a single JSON object, yet the status is 201. -/
theorem non_object_body_created :
    isJSONObject "null".data = false ∧
    (serve (randomJSONPOSTRequest formatInteger)
      (bodyRequest "POST" "/json" [] "null")).w.status = 201 ∧
    isJSONObject "\x7b\x7d]".data = false ∧
    (serve (randomJSONPOSTRequest formatInteger)
      (bodyRequest "POST" "/json" [] "\x7b\x7d]")).w.status = 201 := by
  decide

/-- C6 (amended): on a POST the status is 201 when the first JSON value of the
body decodes and is an object or `null`, whatever follows it; it is 400 when
that value is an array, a string, a number or a boolean, and when the body
does not start with a JSON value the decoder accepts. -/
theorem randomJSONPOSTRequest_status (fmt : Float64 → String) (r : Request)
    (hm : r.method = "POST") :
    (∀ v rest, parseValue convertNumber (2 * r.body.data.length + 1) 0 r.body.data = some (v, rest) →
      (v = JSON.null ∨ ∃ kvs, v = JSON.obj kvs) →
      (serve (randomJSONPOSTRequest fmt) r).w.status = 201) ∧
    (∀ v rest, parseValue convertNumber (2 * r.body.data.length + 1) 0 r.body.data = some (v, rest) →
      ((∃ xs, v = JSON.arr xs) ∨ (∃ s, v = JSON.str s) ∨ (∃ f, v = JSON.num f) ∨
        (∃ b, v = JSON.bool b)) →
      (serve (randomJSONPOSTRequest fmt) r).w.status = 400) ∧
    (parseValue convertNumber (2 * r.body.data.length + 1) 0 r.body.data = none →
      (serve (randomJSONPOSTRequest fmt) r).w.status = 400) := by
  refine ⟨fun v rest hp hk => ?_, fun v rest hp hk => ?_, fun hp => ?_⟩
  · have hd : decodeMap r.body.data = some v := by
      simp only [decodeMap, hp]
      rcases hk with hk | ⟨kvs, hk⟩ <;> subst hk <;> rfl
    rw [randomJSONPOSTRequest_created fmt r v hm hd]
  · have hd : decodeMap r.body.data = none := by
      simp only [decodeMap, hp]
      rcases hk with ⟨x, hk⟩ | ⟨x, hk⟩ | ⟨x, hk⟩ | ⟨x, hk⟩ <;> subst hk <;> rfl
    rw [randomJSONPOSTRequest_error fmt r hm hd]
  · have hd : decodeMap r.body.data = none := by
      simp only [decodeMap, hp]
    rw [randomJSONPOSTRequest_error fmt r hm hd]

theorem randomJSONPOSTRequest_status_witness :
    (serve (randomJSONPOSTRequest formatInteger)
      (bodyRequest "POST" "/json" [] "\x7b\"some\":\"data\"\x7d trailing")).w.status = 201 ∧
    (serve (randomJSONPOSTRequest formatInteger)
      (bodyRequest "POST" "/json" [] "[\"some\", \"data\"]")).w.status = 400 ∧
    (serve (randomJSONPOSTRequest formatInteger)
      (bodyRequest "POST" "/json" [] "\x7b\"some\":\"msg\x7d")).w.status = 400 :=
  ⟨(randomJSONPOSTRequest_status formatInteger
      (bodyRequest "POST" "/json" [] "\x7b\"some\":\"data\"\x7d trailing") rfl).1
      (JSON.obj [("some", JSON.str "data")]) " trailing".data rfl (Or.inr ⟨_, rfl⟩),
   (randomJSONPOSTRequest_status formatInteger
      (bodyRequest "POST" "/json" [] "[\"some\", \"data\"]") rfl).2.1
      (JSON.arr [JSON.str "some", JSON.str "data"]) [] rfl (Or.inl ⟨_, rfl⟩),
   (randomJSONPOSTRequest_status formatInteger
      (bodyRequest "POST" "/json" [] "\x7b\"some\":\"msg\x7d") rfl).2.2 rfl⟩

end Charidy
